import Mathlib

/-!
Verification development for the `otter` transient-catalog repository
(`src/otter/io/transient.py` and `src/otter/io/otter.py`).

The Python code is shallowly embedded: records become Lean structures, the
in-place mutations performed by `Transient.__add__` and its helpers are made
explicit by threading and returning the post-call states of both operands,
numbers handled by Python/pandas become `ℚ`, and fallible code returns
`Except`.  Quantities that the code obtains from external libraries
(astropy angular separations, astropy unit parsing, synphot flux conversion,
the per-telescope area table imported from `otter.util`) are modelled as
explicit inputs or finite tables, documented at their definitions.
-/

set_option maxRecDepth 4000

namespace Otter

/-- Equality tests on `Except` values, used to state concrete outcomes. -/
instance [DecidableEq ε] [DecidableEq α] : DecidableEq (Except ε α) := fun a b =>
  match a, b with
  | .ok x, .ok y =>
      if h : x = y then isTrue (by rw [h])
      else isFalse (fun hc => h (by injection hc))
  | .error x, .error y =>
      if h : x = y then isTrue (by rw [h])
      else isFalse (fun hc => h (by injection hc))
  | .ok _, .error _ => isFalse (fun hc => Except.noConfusion hc)
  | .error _, .ok _ => isFalse (fun hc => Except.noConfusion hc)

/-- Worker for `dedupFirst`: drop elements already seen. -/
def dedupFirstAux [DecidableEq α] (seen : List α) : List α → List α
  | [] => []
  | a :: as =>
      if a ∈ seen then dedupFirstAux seen as
      else a :: dedupFirstAux (a :: seen) as

/-- Keep the first occurrence of each element of a list, dropping later
duplicates (the order-preserving deduplication used to model Python
`set`/`dict` key collections deterministically). -/
def dedupFirst [DecidableEq α] (l : List α) : List α :=
  dedupFirstAux [] l

/-- Lexicographic comparison of character lists by code point. -/
def strLeChars : List Char → List Char → Bool
  | [], _ => true
  | _ :: _, [] => false
  | a :: as, b :: bs => if a = b then strLeChars as bs else decide (a.val < b.val)

/-- Lexicographic `≤` on strings by code point, as Python and NumPy
compare strings. -/
def strLe (s t : String) : Bool :=
  strLeChars s.toList t.toList

/-- Insert a string into a (sorted) list, keeping ascending lexicographic
order.  Used to model `np.unique`'s sorted output. -/
def insertSorted (s : String) : List String → List String
  | [] => [s]
  | t :: ts => if strLe s t then s :: t :: ts else t :: insertSorted s ts

/-- Insertion sort on strings, ascending: models the sorted order in which
`np.unique` returns its values. -/
def sortStrings : List String → List String
  | [] => []
  | s :: ss => insertSorted s (sortStrings ss)

/-- `np.unique` over a list of strings: the distinct values in ascending
lexicographic order (NumPy sorts by code points, as `String.le` does). -/
def npUnique (l : List String) : List String :=
  sortStrings (dedupFirst l)

/-- Python `int(x)` applied to a number: truncation toward zero. -/
def pyint (q : ℚ) : ℤ :=
  if 0 ≤ q then ⌊q⌋ else -⌊-q⌋

/-- A JSON-shaped value as it appears inside a decoded record entry.
`nan` is the floating-point not-a-number that pandas introduces for
missing cells; decoded JSON input never contains it.  List values are
restricted to lists of strings (the reference lists, the only list-valued
fields the claims touch) and nested dicts to string-valued dicts (enough
to exercise the `/`-path machinery), so that equality stays derivable. -/
inductive Val where
  | num (q : ℚ)
  | str (s : String)
  | bool (b : Bool)
  | slist (l : List String)
  | vdict (l : List (String × String))
  | null
  | nan
deriving DecidableEq

/-- A flat record entry (one element of a section list such as
`coordinate[]`, `distance[]`, `date_reference[]`): a Python dict, embedded
as an association list with the dict's insertion order. -/
abbrev Entry := List (String × Val)

/-- First-match lookup in an entry; Python dicts have unique keys, so this
is dict access. -/
def entryGet (e : Entry) (k : String) : Option Val :=
  (e.find? (fun p => decide (p.1 = k))).map (·.2)

/-- Structural (Python `==`) equality of two entries as dicts: the same
value (or absence) at every key. -/
def entryEquiv (e e' : Entry) : Prop :=
  ∀ k, entryGet e k = entryGet e' k

instance (e e' : Entry) : Decidable (entryEquiv e e') :=
  decidable_of_iff
    (∀ k ∈ (e.map (·.1) ++ e'.map (·.1)), entryGet e k = entryGet e' k)
    (by
      constructor
      · intro h k
        by_cases hk : k ∈ (e.map (·.1) ++ e'.map (·.1))
        · exact h k hk
        · rw [List.mem_append, not_or] at hk
          have h1 : entryGet e k = none := by
            unfold entryGet
            rw [List.find?_eq_none.mpr]
            · rfl
            · intro p hp hpk
              exact hk.1 (List.mem_map.mpr ⟨p, hp, by simpa using hpk⟩)
          have h2 : entryGet e' k = none := by
            unfold entryGet
            rw [List.find?_eq_none.mpr]
            · rfl
            · intro p hp hpk
              exact hk.2 (List.mem_map.mpr ⟨p, hp, by simpa using hpk⟩)
          rw [h1, h2]
      · intro h k _
        exact h k)

/-! ### The Tabular Merge Primitive: `Transient._merge_arbitrary` and
`Transient._remove_nans` (transient.py lines 883-931).

`_merge_arbitrary` builds one pandas DataFrame per input list, concatenates
them (aligning on the union of the column names and filling missing cells
with NaN), drops duplicate rows by comparing the string representation of
every cell, converts back to a list of dicts and finally strips the NaN
cells out (`_remove_nans` keeps a field only when its value is not a
float NaN). -/

/-- The column names of the concatenated DataFrame: every key appearing in
either input list, in order of first appearance (pandas unions the two
frames' columns this way). -/
def tableCols (l1 l2 : List Entry) : List String :=
  dedupFirst ((l1 ++ l2).flatMap (fun e => e.map (·.1)))

/-- One row of the concatenated DataFrame: entry `e` aligned to the column
list, a missing column becoming `none` (pandas NaN). -/
def alignRow (cols : List String) (e : Entry) : List (String × Option Val) :=
  cols.map (fun c => (c, entryGet e c))

/-- String representation of a cell, as `DataFrame.astype(str)` produces it
before duplicate dropping.  A missing cell (pandas NaN) prints as `nan`,
which is also how a genuine NaN float prints.  The numeric rendering
differs from Python's decimal formatting but stays injective on `ℚ`. -/
def cellRepr : Option Val → String
  | none => "nan"
  | some (.num q) => toString q
  | some (.str s) => s
  | some (.bool b) => if b then "True" else "False"
  | some (.slist l) => "[" ++ String.intercalate ", " l ++ "]"
  | some (.vdict l) => "dict:" ++ String.intercalate ", " (l.map (fun p => p.1 ++ ":" ++ p.2))
  | some .null => "None"
  | some .nan => "nan"

/-- Row representation used as the duplicate-detection key
(`astype(str).drop_duplicates`). -/
def rowRepr (r : List (String × Option Val)) : List String :=
  r.map (fun p => cellRepr p.2)

/-- Worker for `dropDupRows`, carrying the representations already seen. -/
def dropDupRowsAux (seen : List (List String)) :
    List (List (String × Option Val)) → List (List (String × Option Val))
  | [] => []
  | r :: rs =>
      if rowRepr r ∈ seen then dropDupRowsAux seen rs
      else r :: dropDupRowsAux (rowRepr r :: seen) rs

/-- Keep the first row of every `rowRepr` equivalence class, in order:
`drop_duplicates` keeps first occurrences. -/
def dropDupRows (rs : List (List (String × Option Val))) :
    List (List (String × Option Val)) :=
  dropDupRowsAux [] rs

/-- `Transient._remove_nans` applied to one row converted back to a dict:
a field survives only when its cell is an actual value that is not a float
NaN; absent and NaN cells disappear entirely. -/
def stripRow (r : List (String × Option Val)) : Entry :=
  r.filterMap (fun p =>
    match p.2 with
    | none => none
    | some .nan => none
    | some v => some (p.1, v))

/-- `Transient._merge_arbitrary` (used for the `coordinate`,
`date_reference` and `distance` sections): concatenate, align columns,
drop duplicate rows by string representation, strip NaN cells. -/
def mergeArbitrary (l1 l2 : List Entry) : List Entry :=
  let cols := tableCols l1 l2
  (dropDupRows ((l1 ++ l2).map (alignRow cols))).map stripRow

/-! ### Name merging: `Transient._merge_names` (transient.py lines 674-757).

The default-name conflict is settled by scoring each name against four
regular expressions; the alias lists are unioned with reference lists
concatenated for aliases present on both sides. -/

/-- `re.findall("^[0-9]", n)` is non-empty: the name starts with a digit. -/
def testStartsDigit (n : String) : Bool :=
  match n.toList with
  | [] => false
  | c :: _ => c.isDigit

/-- `re.findall(".$", n)` is non-empty: the name has a final character
(`.` does not match a newline, and `$` also matches just before a trailing
newline). -/
def testEndsAny (n : String) : Bool :=
  match n.toList.reverse with
  | [] => false
  | c :: rest =>
      if c ≠ '\n' then true
      else
        match rest with
        | [] => false
        | c' :: _ => c' ≠ '\n'

/-- `re.findall("^[0-9]{3}", n)` is non-empty: the first three characters
are digits (the source comment says "first four" but the pattern says 3). -/
def testThreeDigits (n : String) : Bool :=
  match n.toList with
  | c1 :: c2 :: c3 :: _ => c1.isDigit && c2.isDigit && c3.isDigit
  | _ => false

/-- `re.findall("^AT", n)` is non-empty: the name starts with "AT". -/
def testStartsAT (n : String) : Bool :=
  match n.toList with
  | c1 :: c2 :: _ => c1 = 'A' && c2 = 'T'
  | _ => false

/-- The total score of a default name: one point per matching pattern. -/
def nameScore (n : String) : Nat :=
  (if testStartsDigit n then 1 else 0) + (if testEndsAny n then 1 else 0) +
  (if testThreeDigits n then 1 else 0) + (if testStartsAT n then 1 else 0)

/-- The winning default name: higher score wins, ties keep side 1's name
(with a warning in the source). -/
def pickDefaultName (n1 n2 : String) : String :=
  if n1 = n2 then n1
  else if nameScore n1 > nameScore n2 then n1
  else if nameScore n2 > nameScore n1 then n2
  else n1

/-- A reference value that the code tolerates as either a bare bibcode
string or a list of bibcode strings. -/
inductive RefVal where
  | scalar (s : String)
  | list (l : List String)
deriving DecidableEq

/-- View a reference value as the list the code normalizes it to
(`[ref] if isinstance(ref, str) else list(ref)`). -/
def RefVal.toL : RefVal → List String
  | .scalar s => [s]
  | .list l => l

/-- One element of `name.alias`. -/
structure AliasEntry where
  value : String
  reference : RefVal
deriving DecidableEq

/-- The `name` section: `{default_name, alias[]}`. -/
structure NameSec where
  default_name : String
  alias_list : List AliasEntry
deriving DecidableEq

/-- The alias-value → reference-list map `t1map`/`t2map` built by
`_merge_names`; later duplicates of a value overwrite earlier ones, with
the key keeping its first-insertion position (Python dict semantics). -/
def aliasMapKeys (l : List AliasEntry) : List String :=
  dedupFirst (l.map (·.value))

/-- Lookup in the alias map: the reference list of the LAST entry with the
given value (dict assignment overwrites). -/
def aliasMapGet (l : List AliasEntry) (v : String) : List String :=
  match (l.reverse.find? (fun a => decide (a.value = v))) with
  | some a => a.reference.toL
  | none => []

/-- `Transient._merge_names`: pick the default name by score, then union
the alias maps; aliases only on one side keep their reference list, aliases
on both get the two lists concatenated.  The output order is side 2's new
aliases, then side 1's own, then the shared ones (the source builds
`line2 + line1 + bothlines`; the order inside each group comes from Python
set iteration and is modelled here as insertion order). -/
def mergeNames (s1 s2 : NameSec) : NameSec :=
  let k1 := aliasMapKeys s1.alias_list
  let k2 := aliasMapKeys s2.alias_list
  let inboth := k1.filter (fun v => decide (v ∈ k2))
  let int1 := k1.filter (fun v => decide (v ∉ k2))
  let int2 := k2.filter (fun v => decide (v ∉ k1))
  let line1 := int1.map (fun v => AliasEntry.mk v (.list (aliasMapGet s1.alias_list v)))
  let line2 := int2.map (fun v => AliasEntry.mk v (.list (aliasMapGet s2.alias_list v)))
  let both := inboth.map (fun v =>
    AliasEntry.mk v (.list (aliasMapGet s1.alias_list v ++ aliasMapGet s2.alias_list v)))
  { default_name := pickDefaultName s1.default_name s2.default_name
    alias_list := line2 ++ line1 ++ both }

/-! ### Classification merging: `Transient._merge_class`
(transient.py lines 832-865).

`out` starts as a deep copy of side 1's list; each side-2 entry either
collides with the first side-1 entry of the same `object_class` (updating
confidence via `int(...)` comparison and unioning references with
`np.unique`) or is appended — and an appended entry is side 2's own dict
object, so the final default-flag pass writes into side 2's record.  The
collision branch also wraps a scalar reference of the side-2 entry in
place.  The embedding therefore returns both the merged list and side 2's
post-call list. -/

/-- One element of `classification[]`.  `default` is optional because
entries may lack the flag before a merge has run. -/
structure ClassEntry where
  object_class : String
  confidence : ℚ
  reference : RefVal
  default : Option Bool
deriving DecidableEq

/-- `np.where(c == classes)[0][0]`: index of the first occurrence. -/
def firstIdx (classes : List String) (c : String) : Option Nat :=
  match classes with
  | [] => none
  | c' :: rest => if c' = c then some 0 else (firstIdx rest c).map (· + 1)

/-- The collision update of `_merge_class`: bump the confidence only when
the *int-truncated* side-2 confidence strictly exceeds the int-truncated
existing one, wrap scalar references, and union the reference lists with
`np.unique` (sorted, deduplicated). -/
def classCollide (a e : ClassEntry) : ClassEntry :=
  let conf := if pyint e.confidence > pyint a.confidence then e.confidence else a.confidence
  { a with
      confidence := conf
      reference := .list (npUnique (a.reference.toL ++ e.reference.toL)) }

/-- Process one side-2 entry against the accumulator.  Entries are tagged
with `some j` when they are (aliases of) side 2's `j`-th dict, `none` when
they are copies of side 1 entries.  `cls1` is the `classes` array computed
once from side 1's list — the source never refreshes it, so the collision
test only sees side 1's classes. -/
def classStep (cls1 : List String) (acc : List (ClassEntry × Option Nat))
    (j : Nat) (e : ClassEntry) :
    List (ClassEntry × Option Nat) × ClassEntry :=
  match firstIdx cls1 e.object_class with
  | some i =>
      match acc[i]? with
      | some (a, tag) =>
          -- in-place wrap of the side-2 entry's scalar reference
          let e' := { e with reference := RefVal.list e.reference.toL }
          (acc.set i (classCollide a e, tag), e')
      | none => (acc, e)  -- unreachable: i < |cls1| = |initial acc| ≤ |acc|
  | none => (acc ++ [(e, some j)], e)

/-- Fold of `classStep` over side 2's entries, keeping both the
accumulator and side 2's (possibly wrapped) entries. -/
def classFold (cls1 : List String) :
    List (ClassEntry × Option Nat) → Nat → List ClassEntry →
    List (ClassEntry × Option Nat) × List ClassEntry
  | acc, _, [] => (acc, [])
  | acc, j, e :: es =>
      let (acc', e') := classStep cls1 acc j e
      let (accF, esF) := classFold cls1 acc' (j + 1) es
      (accF, e' :: esF)

/-- Index of the first maximum-confidence entry: Python's
`max(..., key=...)` keeps the current best unless a later key is strictly
greater. -/
def firstMaxIdxAux : List ClassEntry → Nat → Nat → ℚ → Nat
  | [], _, b, _ => b
  | e :: rest, i, b, m =>
      if e.confidence > m then firstMaxIdxAux rest (i + 1) i e.confidence
      else firstMaxIdxAux rest (i + 1) b m

/-- Index of `max(out[key], key=lambda d: d["confidence"])` in the list. -/
def firstMaxIdx : List ClassEntry → Nat
  | [] => 0
  | e :: rest => firstMaxIdxAux rest 1 0 e.confidence

/-- One step of the default-flag pass: compare the current `j`-th entry
with the current state of the first-max entry (`maxconf` aliases that
entry, so mutations at the first-max index are visible to later
comparisons), then set the `j`-th `default` flag to the comparison
result. -/
def setDefaultsGo (istar : Nat) : List ClassEntry → Nat → Nat → List ClassEntry
  | st, _, 0 => st
  | st, j, fuel + 1 =>
      match st[j]?, st[istar]? with
      | some ej, some em =>
          let st' := st.set j { ej with default := some (ej = em) }
          setDefaultsGo istar st' (j + 1) fuel
      | _, _ => st

/-- The final pass of `_merge_class`: every entry structurally equal
(Python `==` on dicts) to the running first-max entry gets
`default = True`, every other entry `default = False`. -/
def setDefaults (l : List ClassEntry) : List ClassEntry :=
  setDefaultsGo (firstMaxIdx l) l 0 l.length

/-- `Transient._merge_class`, with side 2's post-call entries threaded
through: returns `(merged list, side 2's classification list after the
call)`.  Side 2 entries that were appended share identity with merged
entries, so the default-flag pass writes through to them; colliding side-2
entries only had their scalar reference wrapped. -/
def mergeClass (t1 t2 : List ClassEntry) : List ClassEntry × List ClassEntry :=
  let cls1 := t1.map (·.object_class)
  let acc0 := t1.map (fun e => (e, (none : Option Nat)))
  let (acc, t2mid) := classFold cls1 acc0 0 t2
  let tags := acc.map (·.2)
  let final := setDefaults (acc.map (·.1))
  let tagged := tags.zip final
  let t2post := (List.range t2mid.length).map (fun j =>
    match tagged.find? (fun p => decide (p.1 = some j)) with
    | some p => p.2
    | none => t2mid.getD j (ClassEntry.mk "" 0 (.list []) none))
  (final, t2post)

/-! ### The remaining section types and the Record Merge Engine:
`Transient.__add__` (transient.py lines 177-269).

The engine first applies the strict-mode separation gate, then handles the
`reference_alias` key by *appending side 2's new entries to side 1's own
list in place* (`out[key] = self[key]` aliases, then `.append`), then for
every other shared key copies it when the two values are structurally
equal and otherwise dispatches to the field merger; keys on one side only
are carried over.  Mutations of the operands are returned explicitly: the
result of `mergeT` is `(out, self-after-call, other-after-call)`.

The `photometry`, `spectra` and `host` sections are outside this model
(no claim concerns their mergers); the `extra` association list stands for
any further top-level keys, which have no registered merger and hit the
"unexpected key" branch.  The angular separation of the two records'
default sky coordinates is computed by astropy from the coordinate
sections; it enters the model as the explicit argument `sep` (arcseconds),
exactly as `get_skycoord().separation(...)` delivers it to the gate. -/

/-- One element of `reference_alias`: `{name: bibcode, human_readable_name}`. -/
structure RefAliasEntry where
  name : String
  human_readable_name : String
deriving DecidableEq

/-- One element of `filter_alias`; only `filter_key` steers the merge, the
remaining fields ride along as an entry. -/
structure FAEntry where
  filter_key : String
  payload : Entry
deriving DecidableEq

/-- The `schema_version` section; the merger compares `int(...)` of the
stored value. -/
structure SchemaVer where
  value : ℤ
deriving DecidableEq

/-- A record (the `Transient.data` dict), restricted to the sections the
claims concern.  A `none` section is an absent top-level key. -/
structure Rec where
  name : Option NameSec
  coordinate : Option (List Entry)
  date_reference : Option (List Entry)
  distance : Option (List Entry)
  classification : Option (List ClassEntry)
  filter_alias : Option (List FAEntry)
  schema_version : Option SchemaVer
  reference_alias : Option (List RefAliasEntry)
  extra : List (String × Val)
deriving DecidableEq

/-- The merge errors: `TransientMergeError` is the spec's `MergeRejected`
(raised both for the separation gate and for an unexpected shared key in
strict mode). -/
inductive MergeErr where
  | mergeRejected
deriving DecidableEq

/-- Merge one optional section with a pure field merger: shared equal
values are copied once, shared unequal values dispatched, one-sided values
carried over. -/
def mergeOpt [DecidableEq α] (a b : Option α) (f : α → α → α) : Option α :=
  match a, b with
  | none, none => none
  | some x, none => some x
  | none, some y => some y
  | some x, some y => some (if x = y then x else f x y)

/-- The `reference_alias` branch of `__add__`: `out[key] = self[key]`
aliases side 1's list, and when the two lists differ, side 2 entries whose
bibcode is not among side 1's are appended to that very list.  Returns
`(out section, side 1's section after the call)` — the same list in both
places. -/
def mergeRefSection (a b : Option (List RefAliasEntry)) :
    Option (List RefAliasEntry) × Option (List RefAliasEntry) :=
  match a, b with
  | some x, some y =>
      if x = y then (some x, some x)
      else
        let names := x.map (·.name)
        let merged := x ++ y.filter (fun r => decide (r.name ∉ names))
        (some merged, some merged)
  | some x, none => (some x, some x)
  | none, some y => (some y, none)
  | none, none => (none, none)

/-- The `classification` dispatch: when both sides carry the section and
the values differ, run `_merge_class` and surface side 2's mutated list;
otherwise the generic copy rules apply and side 2 keeps its section. -/
def mergeClassSection (a b : Option (List ClassEntry)) :
    Option (List ClassEntry) × Option (List ClassEntry) :=
  match a, b with
  | some x, some y =>
      if x = y then (some x, some y)
      else
        let (o, y') := mergeClass x y
        (some o, some y')
  | some x, none => (some x, none)
  | none, some y => (some y, some y)
  | none, none => (none, none)

/-- `Transient._merge_filter_alias`: keep side 1's list, append side 2
entries whose `filter_key` is new. -/
def mergeFilterAlias (x y : List FAEntry) : List FAEntry :=
  let keys1 := x.map (·.filter_key)
  x ++ y.filter (fun f => decide (f.filter_key ∉ keys1))

/-- `Transient._merge_schema_version`: the larger `int(value)` wins, ties
go to side 2 (the `else` branch). -/
def mergeSchema (x y : SchemaVer) : SchemaVer :=
  if x.value > y.value then x else y

/-- First-match lookup in a `String × Val` association list. -/
def assocGet (l : List (String × Val)) (k : String) : Option Val :=
  (l.find? (fun p => decide (p.1 = k))).map (·.2)

/-- Merge of the unregistered top-level keys: a shared key with equal
values is copied; a shared key with different values raises
`TransientMergeError` in strict mode and keeps side 1's value (with a
warning) in lenient mode; one-sided keys are carried over. -/
def mergeExtra (ea eb : List (String × Val)) (strict : Bool) :
    Except MergeErr (List (String × Val)) :=
  -- a Python dict's keys are unique, so iterating the key set is
  -- iterating the pairs
  let clash := ea.any (fun p =>
    match assocGet eb p.1 with
    | some v => decide (p.2 ≠ v)
    | none => false)
  if strict ∧ clash then .error .mergeRejected
  else
    let keysA := ea.map (·.1)
    .ok (ea ++ eb.filter (fun p => decide (p.1 ∉ keysA)))

/-- `Transient.__add__` as `merge(A, B, strict)`.  `sep` is the angular
separation (arcseconds) of the two records' default sky coordinates as
astropy computes it; it is only consulted when `strict` is set, exactly as
in the source (`strict_merge and ... > 10 * u.arcsec`).  The result is
`(merged record, A after the call, B after the call)` — the merge is *not*
pure: A's `reference_alias` list is extended in place and B's
`classification` entries are written through.  (In the source an
unexpected-key error raised mid-loop may leave mutations from earlier
iterations behind — the loop order is Python set order; this model reports
the operand states only for calls that return a result, which is all the
claims quantify over.) -/
def mergeT (A B : Rec) (strict : Bool) (sep : ℚ) :
    Except MergeErr (Rec × Rec × Rec) :=
  if strict = true ∧ 10 < sep then .error .mergeRejected
  else
    match mergeExtra A.extra B.extra strict with
    | .error e => .error e
    | .ok ex =>
        let (refOut, refA) := mergeRefSection A.reference_alias B.reference_alias
        let (clsOut, clsB) := mergeClassSection A.classification B.classification
        let out : Rec :=
          { name := mergeOpt A.name B.name mergeNames
            coordinate := mergeOpt A.coordinate B.coordinate mergeArbitrary
            date_reference := mergeOpt A.date_reference B.date_reference mergeArbitrary
            distance := mergeOpt A.distance B.distance mergeArbitrary
            classification := clsOut
            filter_alias := mergeOpt A.filter_alias B.filter_alias mergeFilterAlias
            schema_version := mergeOpt A.schema_version B.schema_version mergeSchema
            reference_alias := refOut
            extra := ex }
        .ok (out, { A with reference_alias := refA },
                  { B with classification := clsB })

/-! ### Item deletion: `Transient.__delitem__` (transient.py lines
104-110).  A key containing `/` is refused outright with
`OtterLimitationError`; otherwise `del self.data[key]` runs (raising
`KeyError` when the key is absent).  The record dict is modelled as an
association list; the function returns the error alongside the (possibly
updated) data so that "the data is unchanged" is expressible. -/

/-- The two ways `__delitem__` can fail. -/
inductive DelErr where
  | otterLimitation
  | keyError
deriving DecidableEq

/-- `Transient.__delitem__`: returns the outcome together with the data
after the call. -/
def delitemT (data : List (String × Val)) (key : String) :
    Except DelErr Unit × List (String × Val) :=
  if key.toList.contains '/' then (.error .otterLimitation, data)
  else if (data.map (·.1)).contains key then
    (.ok (), data.filter (fun p => decide (p.1 ≠ key)))
  else (.error .keyError, data)

/-! ### The spatial cone filter of the query layer: `Otter.query`
(otter.py lines 369-398).

For every candidate record the code walks its `coordinate` entries in
order, builds a SkyCoord from `{ra, dec}` or `{l, b}` (raising
`ValueError` when an entry has neither), and includes the record as soon
as `query_coords.separation(coord) < radius * u.arcsec` — a *strict*
comparison.  The astropy separation (arcseconds, after astropy's internal
frame conversion) is carried as data on each coordinate entry. -/

/-- A candidate coordinate entry of the query layer: equatorial or
galactic (each tagged with its separation from the query point in
arcseconds, the value astropy's `separation` returns), or an entry with
neither pair of keys. -/
inductive QCoordInfo where
  | eq (sep : ℚ)
  | gal (sep : ℚ)
  | bad
deriving DecidableEq

/-- A candidate record as the cone filter sees it. -/
structure QRec where
  tag : String
  coords : List QCoordInfo
deriving DecidableEq

/-- The query-layer failure on an uninterpretable coordinate entry. -/
inductive ConeErr where
  | valueError
deriving DecidableEq

/-- Walk one record's coordinate entries: `True` as soon as one is
strictly within the radius (the `break`), `ValueError` on an entry with
neither coordinate pair, `False` when the list runs out. -/
def scanCoords (radius : ℚ) : List QCoordInfo → Except ConeErr Bool
  | [] => .ok false
  | .bad :: _ => .error .valueError
  | .eq s :: rest => if s < radius then .ok true else scanCoords radius rest
  | .gal s :: rest => if s < radius then .ok true else scanCoords radius rest

/-- The cone filter over the result list: keep records whose scan says
`True`, in order; propagate the first `ValueError`. -/
def coneSearch (radius : ℚ) : List QRec → Except ConeErr (List QRec)
  | [] => .ok []
  | t :: ts =>
      match scanCoords radius t.coords with
      | .error e => .error e
      | .ok b =>
          match coneSearch radius ts with
          | .error e => .error e
          | .ok rest => .ok (if b then t :: rest else rest)

/-- The claim's inclusion predicate with a strict bound: some coordinate
entry lies strictly within the radius. -/
def anyWithin (radius : ℚ) (t : QRec) : Bool :=
  t.coords.any (fun c =>
    match c with
    | .eq s => decide (s < radius)
    | .gal s => decide (s < radius)
    | .bad => false)

/-- A record with no uninterpretable coordinate entry. -/
def goodCoords (t : QRec) : Bool :=
  t.coords.all (fun c => decide (c ≠ .bad))

/-! ### The photometry normalizer: `Transient.clean_photometry`
(transient.py lines 409-672), modelled with the default arguments
(`by="raw"`, `obs_type=None`) down to the per-group conversion stage.

The embedding covers: per-block broadcasting into rows, the inner join
against `filter_alias` on `filter_key`, dropping rows whose `raw` cell is
missing, grouping by `(obs_type, raw_units, telescope)` — the `telescope`
level existing only when some block carries the key, with `dropna=False`
keeping a NaN group that sorts last — the unit-string parsing with its two
string fix-ups, the effective wavelength/frequency resolution, and the
X-ray branch with its telescope checks.  The actual flux arithmetic done
by synphot's `convert_flux` is outside this model (the converted numbers
are carried through unchanged); no claim depends on the produced values,
only on which error, if any, the pipeline raises. -/

/-- One element of `filter_alias` as the normalizer reads it; `none`
fields model keys the underlying dict does not have (pandas fills their
column with NaN). -/
structure FilterEntry where
  filter_key : String
  wave_eff : Option ℚ
  wave_units : Option String
  wave_min : Option ℚ
  wave_max : Option ℚ
  freq_eff : Option ℚ
  freq_units : Option String
deriving DecidableEq

/-- One photometry block, holding one parallel `raw` array plus the scalar
fields that steer the normalizer (scalars are broadcast to the array
length).  A `raw` cell of `none` is a JSON null that pandas turns into
NaN and the `notna` filter drops. -/
structure PhotBlock where
  obs_type : String
  raw : List (Option ℚ)
  raw_units : String
  filter_key : String
  telescope : Option String
deriving DecidableEq

/-- One row of the flattened photometry DataFrame after the filter join. -/
structure PRow where
  obs_type : String
  raw : ℚ
  raw_units : String
  telescope : Option String
  filt : FilterEntry
deriving DecidableEq

/-- The record as the normalizer consumes it. -/
structure PhotInput where
  photometry : List PhotBlock
  filter_alias_list : List FilterEntry
deriving DecidableEq

/-- The failures of `clean_photometry`.  `otterInconsistentUnits`,
`missingTelescopeArea` and `noAreaForTelescope` are the
`OtterLimitationError` raise sites, `noData` is `FailedQueryError`;
`valueError`, `attributeError`, `keyError` and `nameError` are uncaught
Python exceptions escaping from the pandas/unit plumbing
(`attributeError` is `float("nan").lower()` on a NaN telescope cell). -/
inductive PhotErr where
  | emptyConcat
  | noData
  | valueError
  | otterInconsistentUnits
  | missingTelescopeArea
  | noAreaForTelescope
  | attributeError
  | keyError
  | nameError
deriving DecidableEq

/-- First filter entry with the given key (the `filter_alias` invariant
makes keys unique, so the inner join attaches exactly this entry). -/
def lookupFilter (fs : List FilterEntry) (k : String) : Option FilterEntry :=
  fs.find? (fun f => decide (f.filter_key = k))

/-- Rows of the joined DataFrame: one row per non-null `raw` cell of each
block whose `filter_key` appears in `filter_alias`, in block order. -/
def mkRows (inp : PhotInput) : List PRow :=
  inp.photometry.flatMap (fun b =>
    match lookupFilter inp.filter_alias_list b.filter_key with
    | none => []
    | some f =>
        b.raw.filterMap (fun r? =>
          r?.map (fun r => PRow.mk b.obs_type r b.raw_units b.telescope f)))

/-- The telescope component of a group key when the `telescope` column
exists: a real name, or the NaN cell of a block without the key (kept as
its own group by `groupby(..., dropna=False)`). -/
inductive TelKey where
  | name (s : String)
  | nan
deriving DecidableEq

/-- A group key: `(obs_type, raw_units)` plus the telescope level when the
column exists. -/
structure GroupKey where
  obs : String
  units : String
  tel : Option TelKey
deriving DecidableEq

/-- Group key of a row (`teleCol` says whether any block carries a
`telescope` key, i.e. whether the column exists at all). -/
def keyOf (teleCol : Bool) (r : PRow) : GroupKey :=
  { obs := r.obs_type
    units := r.raw_units
    tel := if teleCol then
             some (match r.telescope with
                   | some s => TelKey.name s
                   | none => TelKey.nan)
           else none }

/-- Sort order of the telescope level: names ascending, the NaN group
last (pandas sorts NA keys to the end). -/
def telLe : Option TelKey → Option TelKey → Bool
  | none, _ => true
  | some _, none => true
  | some (.name s), some (.name t) => strLe s t
  | some (.name _), some .nan => true
  | some .nan, some .nan => true
  | some .nan, some (.name _) => false

/-- Lexicographic order on group keys, as `groupby(..., sort=True)`
iterates them. -/
def keyLe (k1 k2 : GroupKey) : Bool :=
  if k1.obs ≠ k2.obs then strLe k1.obs k2.obs
  else if k1.units ≠ k2.units then strLe k1.units k2.units
  else telLe k1.tel k2.tel

/-- Insertion sort of group keys by `keyLe`. -/
def insertKey (k : GroupKey) : List GroupKey → List GroupKey
  | [] => [k]
  | k' :: ks => if keyLe k k' then k :: k' :: ks else k' :: insertKey k ks

/-- Sorted list of group keys. -/
def sortKeys : List GroupKey → List GroupKey
  | [] => []
  | k :: ks => insertKey k (sortKeys ks)

/-- The distinct group keys of a row list, in groupby iteration order. -/
def groupKeys (teleCol : Bool) (rows : List PRow) : List GroupKey :=
  sortKeys (dedupFirst (rows.map (keyOf teleCol)))

/-- Does the external unit library parse this string?  Modelled from the
spec: unit-string interpretation is delegated to the astropy collaborator
("attempt to interpret the raw unit string as a physical unit"); the model
carries a finite table of strings known to parse, sufficient for the
claims. -/
def astroParses (s : String) : Bool :=
  s ∈ ["Jy", "mJy", "uJy", "mag(AB)", "erg / (cm2 s)", "erg / (s cm2)",
       "ct", "ct / s", "nm", "GHz", "mag"]

/-- Worker for `replaceChars`; the fuel is an upper bound on the number of
characters still to scan, so it never runs out. -/
def replaceCharsGo (pat rep : List Char) : Nat → List Char → List Char
  | 0, l => l
  | _, [] => []
  | fuel + 1, c :: cs =>
      if pat ≠ [] ∧ pat.isPrefixOf (c :: cs) then
        rep ++ replaceCharsGo pat rep fuel ((c :: cs).drop pat.length)
      else c :: replaceCharsGo pat rep fuel cs

/-- Python `str.replace`, non-overlapping, scanning left to right (the
replacement text is not rescanned). -/
def replaceChars (pat rep l : List Char) : List Char :=
  replaceCharsGo pat rep l.length l

/-- `String.replace` as the source uses it for the two fix-ups. -/
def pyReplace (s pat rep : String) : String :=
  ⟨replaceChars pat.toList rep.toList s.toList⟩

/-- Is `sub` a substring (`in`) of `s`? -/
def containsSub (sub s : List Char) : Bool :=
  match s with
  | [] => sub.isEmpty
  | _ :: rest => sub.isPrefixOf s || containsSub sub rest

/-- `"vega" in unit.lower()`. -/
def isVega (s : String) : Bool :=
  containsSub "vega".toList (s.toList.map Char.toLower)

/-- The unit-parsing step of `clean_photometry`: the Vega special case
never fails; otherwise try the raw string, then apply the two fix-ups
(`ergs`→`erg`, `AB`→`mag(AB)`) and retry — a second failure escapes as an
uncaught `ValueError` (the source's second `except ValueError` clause is
dead code). -/
def parseUnitStep (s : String) : Except PhotErr Unit :=
  if isVega s then .ok ()
  else if astroParses s then .ok ()
  else if astroParses (pyReplace (pyReplace s "ergs" "erg") "AB" "mag(AB)") then .ok ()
  else .error .valueError

/-- Number of distinct values in a list (`len(np.unique(...))`). -/
def distinctCount [DecidableEq α] (l : List α) : Nat :=
  (dedupFirst l).length

/-- The per-telescope collecting-area table.  Modelled from the spec:
`XRAY_AREAS` lives in `otter.util`, which is not under `src/`; the spec
describes it as "a fixed per-telescope lookup table (case-insensitive
telescope name)".  The entries here are a sufficient stand-in. -/
def xrayAreas : List (String × ℚ) :=
  [("chandra", 400), ("swift", 135), ("xmm", 4650)]

/-- Lowercase lookup into the area table. -/
def lookupArea (tel : String) : Option ℚ :=
  (xrayAreas.find? (fun p => decide (p.1 = ⟨tel.toList.map Char.toLower⟩))).map (·.2)

/-- Outcome of the wavelength/frequency resolution step for a group:
which of `wave_eff` got bound and whether `wave_units` was bound (only
the `wave_eff` branch binds it; the `freq_eff` branch converts frequencies
directly). -/
structure WaveState where
  waveBound : Bool
  waveUnitsBound : Bool
deriving DecidableEq

/-- The effective wavelength / frequency resolution of one group, keyed on
the group's first row (`data[...].iloc[0]`): prefer a present non-null
`freq_eff` column, else a present non-null `wave_eff` column, each guarded
by the "all units literally identical" check; only the wavelength branch
binds the `wave_units` variable. -/
def waveStateGo (freqCol waveCol : Bool) (g : List PRow) :
    Option PRow → Except PhotErr WaveState
  | none => .ok ⟨false, false⟩  -- groups are never empty by construction
  | some r0 =>
      if freqCol = true ∧ (r0.filt.freq_eff ≠ none) then
        if distinctCount (g.map (fun r => r.filt.freq_units)) > 1 then
          .error .otterInconsistentUnits
        else .ok ⟨true, false⟩
      else if waveCol = true ∧ (r0.filt.wave_eff ≠ none) then
        if distinctCount (g.map (fun r => r.filt.wave_units)) > 1 then
          .error .otterInconsistentUnits
        else .ok ⟨true, true⟩
      else .ok ⟨false, false⟩

/-- Wave-state resolution for a group. -/
def waveStateOf (freqCol waveCol : Bool) (g : List PRow) :
    Except PhotErr WaveState :=
  waveStateGo freqCol waveCol g g.head?

/-- Process one group (`for groupedby, data in df.groupby(...)`):
the unit parse, the effective wavelength/frequency resolution with its
`InconsistentUnits` checks, then the X-ray branch with its telescope
checks, then the conversion loop.  The group's rows are returned when the
group converts (the flux numbers themselves are synphot's business and are
carried through unchanged).  (The `len(unit) > 1` raise is unreachable:
the group key already contains `raw_units`.) -/
def processGroup (freqCol waveCol waveMinCol waveMaxCol : Bool)
    (k : GroupKey) (g : List PRow) : Except PhotErr (List PRow) :=
  match parseUnitStep k.units with
  | .error e => .error e
  | .ok _ =>
      match waveStateOf freqCol waveCol g with
      | .error e => .error e
      | .ok w =>
          if k.obs = "xray" then
            match k.tel with
            | none =>
                -- no telescope column at all: `telescope` is the Python
                -- `None`, so the code raises MissingTelescopeArea
                .error .missingTelescopeArea
            | some .nan =>
                -- the column exists but this group's key is the NaN cell:
                -- `telescope is not None` holds and `telescope.lower()`
                -- raises an uncaught AttributeError on the float NaN
                .error .attributeError
            | some (.name s) =>
                if (lookupArea s).isNone then .error .noAreaForTelescope
                else if ¬ (waveMinCol = true ∧ waveMaxCol = true) then .error .keyError
                else if ¬ w.waveUnitsBound = true then .error .nameError
                else .ok g
          else
            -- the conversion loop zips over `wave_eff`; unbound = NameError
            if ¬ w.waveBound = true then .error .nameError
            else .ok g

/-- Fold the groups in groupby order, concatenating the converted rows;
the first raising group aborts the whole call. -/
def processGroups (freqCol waveCol waveMinCol waveMaxCol : Bool)
    (teleCol : Bool) (rows : List PRow) :
    List GroupKey → Except PhotErr (List PRow)
  | [] => .ok []
  | k :: ks =>
      match processGroup freqCol waveCol waveMinCol waveMaxCol k
        (rows.filter (fun r => decide (keyOf teleCol r = k))) with
      | .error e => .error e
      | .ok done =>
          match processGroups freqCol waveCol waveMinCol waveMaxCol teleCol
            rows ks with
          | .error e => .error e
          | .ok rest => .ok (done ++ rest)

/-- `Transient.clean_photometry` with the default arguments, down to the
conversion loop.  The date/frequency relabelling that follows the loop
cannot raise any of the errors the claims concern and is not modelled
further. -/
def cleanPhotometry (inp : PhotInput) : Except PhotErr (List PRow) :=
  if inp.photometry = [] then
    -- `pd.concat([])` raises before anything else happens
    .error .emptyConcat
  else
    let rows := mkRows inp
    let teleCol := inp.photometry.any (fun b => b.telescope.isSome)
    match processGroups
      (inp.filter_alias_list.any (fun f => f.freq_eff.isSome))
      (inp.filter_alias_list.any (fun f => f.wave_eff.isSome))
      (inp.filter_alias_list.any (fun f => f.wave_min.isSome))
      (inp.filter_alias_list.any (fun f => f.wave_max.isSome))
      teleCol rows (groupKeys teleCol rows) with
    | .error e => .error e
    | .ok out => if out.isEmpty then .error .noData else .ok out

/-! ## Concrete inputs used by witnesses and counterexamples -/

/-- The coordinate entry shared by the scenario records (identical
coordinates give an astropy separation of exactly 0). -/
def coordShared : Entry :=
  [("ra", .num 120), ("dec", .num 30),
   ("ra_units", .str "deg"), ("dec_units", .str "deg"),
   ("reference", .slist ["refA"]), ("coordinate_type", .str "equitorial")]

/-- Side A of the Scenario-1 merge: default name "2019abc", alias set
{"2019abc"}. -/
def recC3A : Rec :=
  { name := some ⟨"2019abc", [⟨"2019abc", .list ["ref1"]⟩]⟩
    coordinate := some [coordShared]
    date_reference := none
    distance := none
    classification := none
    filter_alias := none
    schema_version := none
    reference_alias := none
    extra := [] }

/-- Side B of the Scenario-1 merge: default name "AT2019abc", alias set
{"AT2019abc"}. -/
def recC3B : Rec :=
  { name := some ⟨"AT2019abc", [⟨"AT2019abc", .list ["ref2"]⟩]⟩
    coordinate := some [coordShared]
    date_reference := none
    distance := none
    classification := none
    filter_alias := none
    schema_version := none
    reference_alias := none
    extra := [] }

/-- Side A for the purity counterexample: one bibcode, one classification
entry with a scalar reference. -/
def recC1A : Rec :=
  { name := some ⟨"2019abc", [⟨"2019abc", .list ["r1"]⟩]⟩
    coordinate := some [coordShared]
    date_reference := none
    distance := none
    classification := some [⟨"TDE", 1, .scalar "r1", some true⟩]
    filter_alias := none
    schema_version := none
    reference_alias := some [⟨"r1", "Smith (2019)"⟩]
    extra := [] }

/-- Side B for the purity counterexample: a new bibcode `r2` (so the merge
appends to A's `reference_alias` in place) and a colliding classification
entry with a scalar reference (so the merge wraps B's entry in place). -/
def recC1B : Rec :=
  { name := some ⟨"2019abc", [⟨"2019abc", .list ["r1"]⟩]⟩
    coordinate := some [coordShared]
    date_reference := none
    distance := none
    classification := some [⟨"TDE", 1, .scalar "r2", some true⟩]
    filter_alias := none
    schema_version := none
    reference_alias := some [⟨"r1", "Smith (2019)"⟩, ⟨"r2", "Jones (2019)"⟩]
    extra := [] }

/-- A minimal record with one coordinate entry. -/
def recW1 : Rec :=
  { name := some ⟨"2020abc", [⟨"2020abc", .list ["2020A"]⟩]⟩
    coordinate := some [[("ra", .num 10), ("dec", .num 20),
      ("ra_units", .str "deg"), ("dec_units", .str "deg"),
      ("reference", .slist ["2020A"]), ("coordinate_type", .str "equitorial")]]
    date_reference := none
    distance := none
    classification := some [⟨"TDE", 1, .list ["2020A"], some true⟩]
    filter_alias := none
    schema_version := some ⟨0⟩
    reference_alias := some [⟨"2020A", "Smith et al. (2020)"⟩]
    extra := [] }

/-- A second record, spatially far from `recW1`. -/
def recW2 : Rec :=
  { name := some ⟨"AT2020abc", [⟨"AT2020abc", .list ["2020B"]⟩]⟩
    coordinate := some [[("ra", .num 110), ("dec", .num (-20)),
      ("ra_units", .str "deg"), ("dec_units", .str "deg"),
      ("reference", .slist ["2020B"]), ("coordinate_type", .str "equitorial")]]
    date_reference := none
    distance := none
    classification := some [⟨"TDE", 1, .list ["2020B"], some true⟩]
    filter_alias := none
    schema_version := some ⟨0⟩
    reference_alias := some [⟨"2020B", "Jones et al. (2020)"⟩]
    extra := [] }

/-- The record the Scenario-1 merge produces. -/
def recC3merged : Rec :=
  { recC3A with
      name := some ⟨"2019abc",
        [⟨"AT2019abc", .list ["ref2"]⟩, ⟨"2019abc", .list ["ref1"]⟩]⟩ }

/-- The merged record of the purity counterexample. -/
def recC1out : Rec :=
  { recC1A with
      classification := some [⟨"TDE", 1, .list ["r1", "r2"], some true⟩]
      reference_alias := some [⟨"r1", "Smith (2019)"⟩, ⟨"r2", "Jones (2019)"⟩] }

/-- Side A after the purity-counterexample merge: its `reference_alias`
list has grown in place. -/
def recC1Apost : Rec :=
  { recC1A with
      reference_alias := some [⟨"r1", "Smith (2019)"⟩, ⟨"r2", "Jones (2019)"⟩] }

/-- Side B after the purity-counterexample merge: its classification
entry's scalar reference has been wrapped into a list in place. -/
def recC1Bpost : Rec :=
  { recC1B with
      classification := some [⟨"TDE", 1, .list ["r2"], some true⟩] }

/-- A catalog record 3 arcseconds from the query point. -/
def qrec3 : QRec := ⟨"three", [.eq 3]⟩

/-- A catalog record 4 arcseconds from the query point. -/
def qrec4 : QRec := ⟨"four", [.eq 4]⟩

/-- A catalog record 10 arcseconds from the query point. -/
def qrec10 : QRec := ⟨"ten", [.eq 10]⟩

/-- A record whose single coordinate coincides with the query point
(astropy separation exactly 0). -/
def qrecZero : QRec := ⟨"zero", [.eq 0]⟩

/-- The claim's inclusion predicate verbatim: some coordinate entry within
the radius *inclusively*. -/
def anyWithinIncl (radius : ℚ) (t : QRec) : Bool :=
  t.coords.any (fun c =>
    match c with
    | .eq s => decide (s ≤ radius)
    | .gal s => decide (s ≤ radius)
    | .bad => false)

/-- The photometry record of the C8 counterexample: one uvoir block with
a telescope, one X-ray block without, sharing a filter that carries full
wavelength metadata. -/
def photCex : PhotInput :=
  { photometry :=
      [ ⟨"uvoir", [some 1], "Jy", "g", some "T1"⟩,
        ⟨"xray", [some 2], "Jy", "g", none⟩ ]
    filter_alias_list :=
      [ ⟨"g", some 500, some "nm", some 1, some 2, none, none⟩ ] }

/-- The photometry record of the C8 witness: a single X-ray block with no
telescope anywhere, so the telescope column is absent. -/
def photWit : PhotInput :=
  { photometry := [ ⟨"xray", [some 2], "ct", "g", none⟩ ]
    filter_alias_list := [ ⟨"g", some 500, some "nm", some 1, some 2, none, none⟩ ] }

/-! ## Supporting lemmas -/

theorem mergeOpt_self [DecidableEq α] (a : Option α) (f : α → α → α) :
    mergeOpt a a f = a := by
  cases a <;> simp [mergeOpt]

theorem mergeRefSection_self (a : Option (List RefAliasEntry)) :
    mergeRefSection a a = (a, a) := by
  cases a <;> simp [mergeRefSection]

theorem mergeClassSection_self (a : Option (List ClassEntry)) :
    mergeClassSection a a = (a, a) := by
  cases a <;> simp [mergeClassSection]

theorem mergeExtra_self_lenient (ea : List (String × Val)) :
    mergeExtra ea ea false = .ok ea := by
  unfold mergeExtra
  simp only [Bool.false_eq_true, false_and, if_false]
  have h : ea.filter (fun p => decide (p.1 ∉ ea.map (·.1))) = [] := by
    rw [List.filter_eq_nil_iff]
    intro p hp
    have hm : p.1 ∈ ea.map (·.1) := List.mem_map_of_mem _ hp
    simp [hm]
  simp only [h, List.append_nil]

/-! ## C2 — strict merge of spatially distant records is rejected -/

/-- C2: whenever the angular separation computed for the two records
exceeds 10 arcseconds, `merge(A, B, strict=true)` raises
`TransientMergeError` (the spec's MergeRejected) before looking at any
field, so every pair of records is rejected regardless of how cleanly the
rest would merge. -/
theorem strict_far_merge_rejected (A B : Rec) (sep : ℚ) (h : 10 < sep) :
    mergeT A B true sep = .error .mergeRejected := by
  unfold mergeT
  rw [if_pos ⟨rfl, h⟩]

/-- Witness for C2 at separation 11 arcsec. -/
theorem strict_far_merge_rejected_witness :
    (10 : ℚ) < 11 ∧ mergeT recW1 recW2 true 11 = .error .mergeRejected :=
  ⟨by norm_num, strict_far_merge_rejected recW1 recW2 11 (by norm_num)⟩

/-! ## C6 — lenient self-merge is the identity -/

/-- C6: `merge(A, A, strict=false)` returns a record structurally equal to
A — every shared key compares equal, so each section is copied — and
leaves A itself unchanged (the model returns the post-call states of both
operands, which also equal A). -/
theorem merge_self_identity (A : Rec) (sep : ℚ) :
    mergeT A A false sep = .ok (A, A, A) := by
  unfold mergeT
  simp only [Bool.false_eq_true, false_and, if_false,
    mergeExtra_self_lenient, mergeRefSection_self, mergeClassSection_self,
    mergeOpt_self]

/-! ## C10 — path-style deletion is always refused -/

/-- C10: `__delitem__` with a key containing `/` raises
`OtterLimitationError` unconditionally — even when the addressed path
exists — and the record's data is unchanged. -/
theorem delitem_slash_refused (data : List (String × Val)) (key : String)
    (h : key.toList.contains '/' = true) :
    delitemT data key = (.error .otterLimitation, data) := by
  simp only [delitemT, h, if_true]

/-- Witness for C10: the path `a/b` exists in the data, yet deletion is
refused and the data survives untouched. -/
theorem delitem_slash_refused_witness :
    ("a/b".toList.contains '/' = true) ∧
      delitemT [("a", .vdict [("b", "c")]), ("x", .num 1)] "a/b" =
        (.error .otterLimitation, [("a", .vdict [("b", "c")]), ("x", .num 1)]) :=
  ⟨by decide, delitem_slash_refused _ _ (by decide)⟩

/-! ## C3 — the Scenario-1 merge and its default name -/

/-- C3 counterexample: merging the two Scenario-1 records (identical
coordinates, so astropy's separation is exactly 0) yields default name
"2019abc", not "AT2019abc" as claimed: the four-pattern scorer gives
side A's "2019abc" three points (digit start, any final character, three
leading digits) against two (any final character, "AT" prefix). -/
theorem merge_scenario1_name_refutes :
    mergeT recC3A recC3B true 0 = .ok (recC3merged, recC3A, recC3B) ∧
      recC3merged.name.map (·.default_name) ≠ some "AT2019abc" := by
  constructor
  · rfl
  · decide

/-- C3 amended: the Scenario-1 merge keeps both aliases, each with its
original reference list, and settles the default name on "2019abc" —
the name with the *higher* pattern score (3 against 2; "AT2019abc" only
gains the always-true final-character point and the "AT" prefix point). -/
theorem merge_scenario1_amended :
    mergeT recC3A recC3B true 0 = .ok (recC3merged, recC3A, recC3B) ∧
      recC3merged.name = some ⟨"2019abc",
        [⟨"AT2019abc", .list ["ref2"]⟩, ⟨"2019abc", .list ["ref1"]⟩]⟩ ∧
      nameScore "2019abc" = 3 ∧ nameScore "AT2019abc" = 2 := by
  refine ⟨rfl, rfl, ?_, ?_⟩ <;> decide

/-! ## C1 — merge is not pure -/

/-- C1 counterexample: a successful lenient merge that leaves side A with
a longer `reference_alias` list than it started with and side B with a
rewritten classification reference — both operands are mutated. -/
theorem merge_not_pure_refutes :
    mergeT recC1A recC1B false 0 = .ok (recC1out, recC1Apost, recC1Bpost) ∧
      recC1Apost ≠ recC1A ∧ recC1Bpost ≠ recC1B := by
  refine ⟨rfl, ?_, ?_⟩ <;> decide

/-- C1 amended: a successful `merge(A, B, strict)` leaves every section of
A untouched *except* `reference_alias`: when both sides carry differing
`reference_alias` lists, B's entries with new bibcodes are appended to A's
list in place (and the result aliases that same list).  Likewise B is
untouched except `classification`, which when both sides carry differing
lists becomes `_merge_class`'s write-through of B's entries (scalar
references wrapped, appended entries sharing the merged entries' default
flags). -/
theorem merge_mutation_characterized (A B : Rec) (strict : Bool) (sep : ℚ)
    (out A' B' : Rec) (h : mergeT A B strict sep = .ok (out, A', B')) :
    A'.name = A.name ∧ A'.coordinate = A.coordinate ∧
    A'.date_reference = A.date_reference ∧ A'.distance = A.distance ∧
    A'.classification = A.classification ∧ A'.filter_alias = A.filter_alias ∧
    A'.schema_version = A.schema_version ∧ A'.extra = A.extra ∧
    (∀ x y, A.reference_alias = some x → B.reference_alias = some y → x ≠ y →
      A'.reference_alias =
        some (x ++ y.filter (fun r => decide (r.name ∉ x.map (·.name)))) ∧
        out.reference_alias = A'.reference_alias) ∧
    (A.reference_alias = B.reference_alias → A'.reference_alias = A.reference_alias) ∧
    (B.reference_alias = none → A'.reference_alias = A.reference_alias) ∧
    B'.name = B.name ∧ B'.coordinate = B.coordinate ∧
    B'.date_reference = B.date_reference ∧ B'.distance = B.distance ∧
    B'.filter_alias = B.filter_alias ∧ B'.schema_version = B.schema_version ∧
    B'.reference_alias = B.reference_alias ∧ B'.extra = B.extra ∧
    (∀ x y, A.classification = some x → B.classification = some y → x ≠ y →
      B'.classification = some (mergeClass x y).2) ∧
    (A.classification = B.classification → B'.classification = B.classification) ∧
    (A.classification = none → B'.classification = B.classification) := by
  unfold mergeT at h
  by_cases hc : (strict = true ∧ 10 < sep)
  · rw [if_pos hc] at h
    exact absurd h (by simp)
  · rw [if_neg hc] at h
    cases hme : mergeExtra A.extra B.extra strict with
    | error e =>
        rw [hme] at h
        exact absurd h (by simp)
    | ok ex =>
        rw [hme] at h
        simp only [Except.ok.injEq, Prod.mk.injEq] at h
        obtain ⟨hout, hA, hB⟩ := h
        subst hout
        subst hA
        subst hB
        refine ⟨rfl, rfl, rfl, rfl, rfl, rfl, rfl, rfl, ?_, ?_, ?_,
          rfl, rfl, rfl, rfl, rfl, rfl, rfl, rfl, ?_, ?_, ?_⟩
        · intro x y hx hy hxy
          simp only [hx, hy, mergeRefSection, if_neg hxy]
          trivial
        · intro hxy
          rw [hxy]
          cases B.reference_alias <;> simp [mergeRefSection]
        · intro hy
          rw [hy]
          cases A.reference_alias <;> simp [mergeRefSection]
        · intro x y hx hy hxy
          simp only [hx, hy, mergeClassSection, if_neg hxy]
        · intro hxy
          rw [hxy]
          cases B.classification <;> simp [mergeClassSection]
        · intro hx
          rw [hx]
          cases B.classification <;> simp [mergeClassSection]

/-- Witness for C1's amended description at the concrete mutated pair:
side A ends the call with B's new bibcode appended to its own
`reference_alias` list. -/
theorem merge_mutation_characterized_witness :
    recC1Apost.reference_alias =
      some [⟨"r1", "Smith (2019)"⟩, ⟨"r2", "Jones (2019)"⟩] := by
  have h := merge_mutation_characterized recC1A recC1B false 0
    recC1out recC1Apost recC1Bpost (by rfl)
  have href := h.2.2.2.2.2.2.2.2.1 [⟨"r1", "Smith (2019)"⟩]
    [⟨"r1", "Smith (2019)"⟩, ⟨"r2", "Jones (2019)"⟩] rfl rfl (by decide)
  rw [href.1]
  decide

/-! ## C9 — the spatial cone filter uses a strict bound -/

/-- `scanCoords` on a record without uninterpretable entries returns
exactly the strict-within test. -/
theorem scanCoords_good (radius : ℚ) (cs : List QCoordInfo)
    (h : cs.all (fun c => decide (c ≠ .bad)) = true) :
    scanCoords radius cs = .ok (cs.any (fun c =>
      match c with
      | .eq s => decide (s < radius)
      | .gal s => decide (s < radius)
      | .bad => false)) := by
  induction cs with
  | nil => rfl
  | cons c rest ih =>
      rw [List.all_cons, Bool.and_eq_true] at h
      cases c with
      | bad => simp at h
      | eq s =>
          by_cases hs : s < radius
          · simp [scanCoords, hs]
          · simp only [scanCoords, if_neg hs, ih h.2, List.any_cons]
            simp [hs]
      | gal s =>
          by_cases hs : s < radius
          · simp [scanCoords, hs]
          · simp only [scanCoords, if_neg hs, ih h.2, List.any_cons]
            simp [hs]

/-- C9 counterexample: with radius 0, a record whose coordinate coincides
with the query point (separation exactly 0, which satisfies the claim's
`≤ radius` criterion) is *excluded* — the code compares with a strict
`<`. -/
theorem cone_filter_refutes :
    coneSearch 0 [qrecZero] = .ok [] ∧ anyWithinIncl 0 qrecZero = true := by
  exact ⟨rfl, rfl⟩

/-- C9 amended: for candidate records whose coordinate entries are all
interpretable, the cone filter returns exactly the records having some
coordinate *strictly* within the query radius; the membership criterion is
`separation < radius`, not `≤`.  (With radius 5, records 3 and 4 arcsec
away are still returned and one 10 arcsec away excluded — see the
witness.) -/
theorem cone_filter_strict (radius : ℚ) (tdes : List QRec)
    (h : ∀ t ∈ tdes, goodCoords t = true) :
    coneSearch radius tdes = .ok (tdes.filter (anyWithin radius)) := by
  induction tdes with
  | nil => rfl
  | cons t ts ih =>
      have ht : goodCoords t = true := h t (List.mem_cons_self t ts)
      have hscan := scanCoords_good radius t.coords ht
      have hrest := ih (fun t' ht' => h t' (List.mem_cons_of_mem t ht'))
      simp only [coneSearch, hscan, hrest, List.filter_cons]
      rfl

/-- Witness for C9 at the spec's Scenario 4: radius 5, catalog records 3,
4 and 10 arcseconds away — the first two are returned, the third is not. -/
theorem cone_filter_strict_witness :
    coneSearch 5 [qrec3, qrec4, qrec10] = .ok [qrec3, qrec4] := by
  have h := cone_filter_strict 5 [qrec3, qrec4, qrec10] (by decide)
  rw [h]
  rfl

/-! ## C4 — the classification collision update -/

/-- A successful `firstIdx` lookup reads back the searched value. -/
theorem firstIdx_get (cs : List String) (c : String) (i : Nat)
    (h : firstIdx cs c = some i) : cs[i]? = some c := by
  induction cs generalizing i with
  | nil => simp [firstIdx] at h
  | cons c' rest ih =>
      simp only [firstIdx] at h
      by_cases hc : c' = c
      · rw [if_pos hc] at h
        injection h with h1
        subst h1
        simpa using hc
      · rw [if_neg hc] at h
        cases hfi : firstIdx rest c with
        | none => rw [hfi] at h; simp at h
        | some i' =>
            rw [hfi] at h
            simp only [Option.map_some'] at h
            injection h with h1
            subst h1
            simpa using ih i' hfi

/-- The accumulator entry at index `i` after the side-2 fold: the original
entry updated by `classCollide` once per side-2 entry whose class
first-resolves to `i`, in order. -/
theorem classFold_get (cls1 : List String) (i : Nat) (ts : List ClassEntry) :
    ∀ (acc : List (ClassEntry × Option Nat)) (j : Nat)
      (a0 : ClassEntry) (tag : Option Nat),
      acc[i]? = some (a0, tag) →
      ((classFold cls1 acc j ts).1)[i]? =
        some ((ts.filter (fun e =>
          decide (firstIdx cls1 e.object_class = some i))).foldl classCollide a0, tag) := by
  induction ts with
  | nil =>
      intro acc j a0 tag h
      simpa [classFold] using h
  | cons e rest ih =>
      intro acc j a0 tag h
      have hilen : i < acc.length := by
        by_contra hge
        rw [List.getElem?_eq_none (Nat.le_of_not_lt hge)] at h
        exact Option.noConfusion h
      cases hfi : firstIdx cls1 e.object_class with
      | none =>
          have hstep : classStep cls1 acc j e = (acc ++ [(e, some j)], e) := by
            simp [classStep, hfi]
          have hpre : (acc ++ [(e, some j)])[i]? = some (a0, tag) := by
            rw [List.getElem?_append, if_pos hilen]
            exact h
          simp only [classFold, hstep]
          rw [ih (acc ++ [(e, some j)]) (j + 1) a0 tag hpre]
          simp [hfi]
      | some i' =>
          by_cases hii : i' = i
          · subst hii
            have hstep : classStep cls1 acc j e =
                (acc.set i' (classCollide a0 e, tag), { e with reference := RefVal.list e.reference.toL }) := by
              simp [classStep, hfi, h]
            have hpre : (acc.set i' (classCollide a0 e, tag))[i']? =
                some (classCollide a0 e, tag) := by
              rw [List.getElem?_set_self]
              · exact hilen
            simp only [classFold, hstep]
            rw [ih _ (j + 1) (classCollide a0 e) tag hpre]
            simp [hfi]
          · cases hacc : acc[i']? with
            | none =>
                have hstep : classStep cls1 acc j e = (acc, e) := by
                  simp [classStep, hfi, hacc]
                simp only [classFold, hstep]
                rw [ih acc (j + 1) a0 tag h]
                have : ¬ (firstIdx cls1 e.object_class = some i) := by
                  rw [hfi]
                  exact fun hc => hii (by injection hc)
                simp [this]
            | some p =>
                have hstep : classStep cls1 acc j e =
    (acc.set i' (classCollide p.1 e, p.2), { e with reference := RefVal.list e.reference.toL }) := by
                  simp [classStep, hfi, hacc]
                have hpre : (acc.set i' (classCollide p.1 e, p.2))[i]? = some (a0, tag) := by
                  rw [List.getElem?_set_ne (fun hc => hii hc)]
                  exact h
                simp only [classFold, hstep]
                rw [ih _ (j + 1) a0 tag hpre]
                have : ¬ (firstIdx cls1 e.object_class = some i) := by
                  rw [hfi]
                  exact fun hc => hii (by injection hc)
                simp [this]

/-- The projection of a classification entry that the default-flag pass
leaves alone. -/
def classProj (e : ClassEntry) : String × ℚ × RefVal :=
  (e.object_class, e.confidence, e.reference)

/-- The default-flag pass only rewrites `default` flags: class, confidence
and reference at every index are untouched. -/
theorem setDefaultsGo_proj (istar : Nat) (fuel : Nat) :
    ∀ (j : Nat) (st : List ClassEntry) (i : Nat),
      ((setDefaultsGo istar st j fuel)[i]?).map classProj = (st[i]?).map classProj := by
  induction fuel with
  | zero => intro j st i; rfl
  | succ fuel ih =>
      intro j st i
      simp only [setDefaultsGo]
      cases hj : st[j]? with
      | none => rfl
      | some ej =>
          cases hm : st[istar]? with
          | none => rfl
          | some em =>
              rw [ih]
              have hjlen : j < st.length := by
                by_contra hge
                rw [List.getElem?_eq_none (Nat.le_of_not_lt hge)] at hj
                exact Option.noConfusion hj
              by_cases hij : i = j
              · subst hij
                rw [List.getElem?_set_self hjlen, hj]
                rfl
              · rw [List.getElem?_set_ne (fun hc => hij hc.symm)]

/-- Same statement for `setDefaults` itself. -/
theorem setDefaults_proj (l : List ClassEntry) (i : Nat) :
    (((setDefaults l)[i]?).map classProj) = ((l[i]?).map classProj) :=
  setDefaultsGo_proj (firstMaxIdx l) l.length 0 l i

/-- C4 counterexample: A holds the class at confidence 0.3, B offers the
same class at 0.9 — numerically higher, but `int(0.9) > int(0.3)` is
`0 > 0`, so the merged entry keeps 0.3. -/
theorem classification_confidence_refutes :
    (mergeClass [⟨"TDE", mkRat 3 10, .list ["r1"], some false⟩]
                [⟨"TDE", mkRat 9 10, .list ["r2"], some false⟩]).1 =
      [⟨"TDE", mkRat 3 10, .list ["r1", "r2"], some true⟩] ∧
    mkRat 3 10 < mkRat 9 10 := by
  exact ⟨rfl, by decide⟩

/-- C4 amended: on a collision between side A's entry at first index `i`
and the unique side-B entry of that class, the merged entry keeps its
class, takes B's confidence only when the *int-truncated* B confidence
strictly exceeds the int-truncated existing one (ties and all
sub-integer differences keep side A's value), and its reference list is
the sorted deduplicated union of the two entries' reference lists. -/
theorem classification_collision (t1 t2 : List ClassEntry) (e a : ClassEntry)
    (i : Nat)
    (hcol : firstIdx (t1.map (·.object_class)) e.object_class = some i)
    (ha : t1[i]? = some a)
    (huniq : t2.filter (fun x => decide (x.object_class = e.object_class)) = [e]) :
    ∃ me, ((mergeClass t1 t2).1)[i]? = some me ∧
      me.object_class = a.object_class ∧
      me.confidence =
        (if pyint a.confidence < pyint e.confidence then e.confidence
         else a.confidence) ∧
      me.reference = RefVal.list (npUnique (a.reference.toL ++ e.reference.toL)) := by
  have hacc0 : (t1.map (fun x => (x, (none : Option Nat))))[i]? = some (a, none) := by
    rw [List.getElem?_map, ha]
    rfl
  have hfold := classFold_get (t1.map (·.object_class)) i t2
    (t1.map (fun x => (x, none))) 0 a none hacc0
  have hfilter : t2.filter (fun x =>
      decide (firstIdx (t1.map (·.object_class)) x.object_class = some i)) = [e] := by
    rw [← huniq]
    apply List.filter_congr
    intro x _
    by_cases hx : x.object_class = e.object_class
    · rw [hx, hcol]
      simp [hx]
    · have hni : ¬ (firstIdx (t1.map (·.object_class)) x.object_class = some i) := by
        intro hc
        have h1 := firstIdx_get _ _ _ hc
        have h2 := firstIdx_get _ _ _ hcol
        rw [h1] at h2
        exact hx (by injection h2)
      simp [hni, hx]
  rw [hfilter] at hfold
  simp only [List.foldl_cons, List.foldl_nil] at hfold
  have hmap : (((classFold (t1.map (·.object_class))
      (t1.map (fun x => (x, none))) 0 t2).1).map (·.1))[i]? =
      some (classCollide a e) := by
    rw [List.getElem?_map, hfold]
    rfl
  have hproj := setDefaults_proj
    (((classFold (t1.map (·.object_class)) (t1.map (fun x => (x, none))) 0 t2).1).map (·.1)) i
  rw [hmap] at hproj
  cases hme : (setDefaults (((classFold (t1.map (·.object_class))
      (t1.map (fun x => (x, none))) 0 t2).1).map (·.1)))[i]? with
  | none =>
      rw [hme] at hproj
      exact Option.noConfusion hproj
  | some me =>
      rw [hme] at hproj
      simp only [Option.map_some'] at hproj
      injection hproj with hproj
      have h1 : me.object_class = a.object_class := congrArg Prod.fst hproj
      have h2 : me.confidence =
          (if pyint a.confidence < pyint e.confidence then e.confidence
           else a.confidence) := congrArg (fun p => p.2.1) hproj
      have h3 : me.reference =
          RefVal.list (npUnique (a.reference.toL ++ e.reference.toL)) :=
        congrArg (fun p => p.2.2) hproj
      refine ⟨me, ?_, h1, h2, h3⟩
      show (mergeClass t1 t2).1[i]? = some me
      simp only [mergeClass]
      exact hme

/-- Witness for C4: one entry per side, same class, integer confidences
1 and 3 — the truncated comparison fires and the union is sorted and
deduplicated. -/
theorem classification_collision_witness :
    ∃ me, ((mergeClass [⟨"TDE", 1, .list ["r1"], some false⟩]
        [⟨"TDE", 3, .scalar "r2", some false⟩]).1)[0]? = some me ∧
      me.object_class = "TDE" ∧ me.confidence = 3 ∧
      me.reference = RefVal.list ["r1", "r2"] := by
  obtain ⟨me, h1, h2, h3, h4⟩ := classification_collision
    [⟨"TDE", 1, .list ["r1"], some false⟩]
    [⟨"TDE", 3, .scalar "r2", some false⟩]
    ⟨"TDE", 3, .scalar "r2", some false⟩
    ⟨"TDE", 1, .list ["r1"], some false⟩ 0 (by decide) (by decide) (by decide)
  refine ⟨me, h1, h2, ?_, ?_⟩
  · rw [h3]
    decide
  · rw [h4]
    decide

/-! ## C5 — the recomputed default flag -/

/-- Setting an index to the value it already holds changes nothing. -/
theorem set_self_of_get (l : List α) (i : Nat) (x : α) (h : l[i]? = some x) :
    l.set i x = l := by
  apply List.ext_getElem?
  intro k
  by_cases hk : k = i
  · subst hk
    have hlt : k < l.length := by
      by_contra hge
      rw [List.getElem?_eq_none (Nat.le_of_not_lt hge)] at h
      exact Option.noConfusion h
    rw [List.getElem?_set_self hlt, h]
  · rw [List.getElem?_set_ne (fun hc => hk hc.symm)]

/-- `firstIdx` fails exactly on absent values. -/
theorem firstIdx_eq_none (cs : List String) (c : String)
    (h : firstIdx cs c = none) : c ∉ cs := by
  induction cs with
  | nil => simp
  | cons c' rest ih =>
      simp only [firstIdx] at h
      by_cases hc : c' = c
      · rw [if_pos hc] at h
        exact Option.noConfusion h
      · rw [if_neg hc] at h
        cases hfi : firstIdx rest c with
        | none =>
            intro hmem
            rcases List.mem_cons.mp hmem with h1 | h1
            · exact hc h1.symm
            · exact ih hfi h1
        | some i' => rw [hfi] at h; simp at h

/-- The class column of the accumulator after the side-2 fold: side 1's
classes followed by the classes of the appended (new-class) side-2
entries, in order. -/
theorem classFold_classes (cls1 : List String) (ts : List ClassEntry) :
    ∀ (acc : List (ClassEntry × Option Nat)) (j : Nat),
      ((classFold cls1 acc j ts).1).map (fun p => p.1.object_class) =
        acc.map (fun p => p.1.object_class) ++
        (ts.filter (fun e =>
          decide (firstIdx cls1 e.object_class = none))).map (·.object_class) := by
  induction ts with
  | nil => intro acc j; simp [classFold]
  | cons e rest ih =>
      intro acc j
      cases hfi : firstIdx cls1 e.object_class with
      | none =>
          have hstep : classStep cls1 acc j e = (acc ++ [(e, some j)], e) := by
            simp [classStep, hfi]
          simp only [classFold, hstep]
          rw [ih]
          simp [hfi]
      | some i' =>
          cases hacc : acc[i']? with
          | none =>
              have hstep : classStep cls1 acc j e = (acc, e) := by
                simp [classStep, hfi, hacc]
              simp only [classFold, hstep]
              rw [ih]
              simp [hfi]
          | some p =>
              have hstep : classStep cls1 acc j e =
    (acc.set i' (classCollide p.1 e, p.2), { e with reference := RefVal.list e.reference.toL }) := by
                simp [classStep, hfi, hacc]
              simp only [classFold, hstep]
              rw [ih]
              have hset : (acc.set i' (classCollide p.1 e, p.2)).map
                  (fun p => p.1.object_class) = acc.map (fun p => p.1.object_class) := by
                rw [List.map_set]
                apply set_self_of_get
                rw [List.getElem?_map, hacc]
                rfl
              rw [hset]
              simp [hfi]

/-- The fold with an empty class column appends every side-2 entry. -/
theorem classFold_length (cls1 : List String) (ts : List ClassEntry) :
    ∀ (acc : List (ClassEntry × Option Nat)) (j : Nat),
      acc.length ≤ ((classFold cls1 acc j ts).1).length := by
  induction ts with
  | nil => intro acc j; simp [classFold]
  | cons e rest ih =>
      intro acc j
      cases hfi : firstIdx cls1 e.object_class with
      | none =>
          have hstep : classStep cls1 acc j e = (acc ++ [(e, some j)], e) := by
            simp [classStep, hfi]
          simp only [classFold, hstep]
          calc acc.length ≤ (acc ++ [(e, some j)]).length := by simp
            _ ≤ _ := ih _ _
      | some i' =>
          cases hacc : acc[i']? with
          | none =>
              have hstep : classStep cls1 acc j e = (acc, e) := by
                simp [classStep, hfi, hacc]
              simp only [classFold, hstep]
              exact ih _ _
          | some p =>
              have hstep : classStep cls1 acc j e =
    (acc.set i' (classCollide p.1 e, p.2), { e with reference := RefVal.list e.reference.toL }) := by
                simp [classStep, hfi, hacc]
              simp only [classFold, hstep]
              calc acc.length = (acc.set i' (classCollide p.1 e, p.2)).length := by simp
                _ ≤ _ := ih _ _

/-- Specification of the first-maximum scan `firstMaxIdxAux`: either the
running best survives and every remaining confidence is `≤ m`, or the scan
lands on a strictly better entry that no later entry strictly beats and
every earlier remaining entry stays strictly below. -/
theorem firstMaxIdxAux_spec (rest : List ClassEntry) :
    ∀ (i b : Nat) (m : ℚ),
      (firstMaxIdxAux rest i b m = b ∧
        (∀ (k : Nat) (ek : ClassEntry), rest[k]? = some ek → ek.confidence ≤ m)) ∨
      (∃ (k : Nat) (ek : ClassEntry), rest[k]? = some ek ∧
        firstMaxIdxAux rest i b m = i + k ∧
        m < ek.confidence ∧
        (∀ (k' : Nat) (ek' : ClassEntry), rest[k']? = some ek' →
          ek'.confidence ≤ ek.confidence) ∧
        (∀ (k' : Nat) (ek' : ClassEntry), k' < k → rest[k']? = some ek' →
          ek'.confidence < ek.confidence)) := by
  induction rest with
  | nil =>
      intro i b m
      left
      refine ⟨rfl, ?_⟩
      intro k ek hk
      simp at hk
  | cons e rest' ih =>
      intro i b m
      by_cases hgt : e.confidence > m
      · rcases ih (i + 1) i e.confidence with ⟨hr, hle⟩ | ⟨k, ek, hk, hr, hlt, hmax, hstrict⟩
        · right
          refine ⟨0, e, by simp, ?_, hgt, ?_, ?_⟩
          · simpa [firstMaxIdxAux, hgt] using hr
          · intro k' ek' hk'
            cases k' with
            | zero =>
                rw [List.getElem?_cons_zero] at hk'
                injection hk' with hk'
                exact hk' ▸ le_refl _
            | succ k'' =>
                rw [List.getElem?_cons_succ] at hk'
                exact hle k'' ek' hk'
          · intro k' ek' hk' _
            exact absurd hk' (Nat.not_lt_zero k')
        · right
          refine ⟨k + 1, ek, by simpa using hk, ?_, lt_trans hgt hlt, ?_, ?_⟩
          · simp only [firstMaxIdxAux, if_pos hgt]
            rw [hr]
            omega
          · intro k' ek' hk'
            cases k' with
            | zero =>
                rw [List.getElem?_cons_zero] at hk'
                injection hk' with hk'
                exact hk' ▸ le_of_lt hlt
            | succ k'' =>
                rw [List.getElem?_cons_succ] at hk'
                exact hmax k'' ek' hk'
          · intro k' ek' hk'lt hk'
            cases k' with
            | zero =>
                rw [List.getElem?_cons_zero] at hk'
                injection hk' with hk'
                exact hk' ▸ hlt
            | succ k'' =>
                rw [List.getElem?_cons_succ] at hk'
                exact hstrict k'' ek' (Nat.lt_of_succ_lt_succ hk'lt) hk'
      · rcases ih (i + 1) b m with ⟨hr, hle⟩ | ⟨k, ek, hk, hr, hlt, hmax, hstrict⟩
        · left
          refine ⟨by simpa [firstMaxIdxAux, hgt] using hr, ?_⟩
          intro k' ek' hk'
          cases k' with
          | zero =>
              rw [List.getElem?_cons_zero] at hk'
              injection hk' with hk'
              exact hk' ▸ le_of_not_lt hgt
          | succ k'' =>
              rw [List.getElem?_cons_succ] at hk'
              exact hle k'' ek' hk'
        · right
          refine ⟨k + 1, ek, by simpa using hk, ?_, hlt, ?_, ?_⟩
          · simp only [firstMaxIdxAux, if_neg hgt]
            rw [hr]
            omega
          · intro k' ek' hk'
            cases k' with
            | zero =>
                rw [List.getElem?_cons_zero] at hk'
                injection hk' with hk'
                exact hk' ▸ le_of_lt (lt_of_le_of_lt (le_of_not_lt hgt) hlt)
            | succ k'' =>
                rw [List.getElem?_cons_succ] at hk'
                exact hmax k'' ek' hk'
          · intro k' ek' hk'lt hk'
            cases k' with
            | zero =>
                rw [List.getElem?_cons_zero] at hk'
                injection hk' with hk'
                exact hk' ▸ lt_of_le_of_lt (le_of_not_lt hgt) hlt
            | succ k'' =>
                rw [List.getElem?_cons_succ] at hk'
                exact hstrict k'' ek' (Nat.lt_of_succ_lt_succ hk'lt) hk'

/-- On a non-empty list, `firstMaxIdx` is an in-range index of a
maximum-confidence entry, and every earlier entry is strictly below it. -/
theorem firstMaxIdx_spec (l : List ClassEntry) (hne : l ≠ []) :
    ∃ em, l[firstMaxIdx l]? = some em ∧
      (∀ (j : Nat) (ej : ClassEntry), l[j]? = some ej →
        ej.confidence ≤ em.confidence) ∧
      (∀ (j : Nat) (ej : ClassEntry), j < firstMaxIdx l → l[j]? = some ej →
        ej.confidence < em.confidence) := by
  cases l with
  | nil => exact absurd rfl hne
  | cons e rest =>
      rcases firstMaxIdxAux_spec rest 1 0 e.confidence with
        ⟨hr, hle⟩ | ⟨k, ek, hk, hr, hlt, hmax, hstrict⟩
      · refine ⟨e, ?_, ?_, ?_⟩
        · show (e :: rest)[firstMaxIdx (e :: rest)]? = some e
          simp [firstMaxIdx, hr]
        · intro j ej hj
          cases j with
          | zero =>
              rw [List.getElem?_cons_zero] at hj
              injection hj with hj
              exact hj ▸ le_refl _
          | succ j' =>
              rw [List.getElem?_cons_succ] at hj
              exact hle j' ej hj
        · intro j ej hjlt hj
          simp only [firstMaxIdx, hr] at hjlt
          exact absurd hjlt (Nat.not_lt_zero j)
      · refine ⟨ek, ?_, ?_, ?_⟩
        · show (e :: rest)[firstMaxIdx (e :: rest)]? = some ek
          simp only [firstMaxIdx, hr]
          rw [Nat.add_comm 1 k, List.getElem?_cons_succ]
          exact hk
        · intro j ej hj
          cases j with
          | zero =>
              rw [List.getElem?_cons_zero] at hj
              injection hj with hj
              exact hj ▸ le_of_lt hlt
          | succ j' =>
              rw [List.getElem?_cons_succ] at hj
              exact hmax j' ej hj
        · intro j ej hjlt hj
          simp only [firstMaxIdx, hr] at hjlt
          cases j with
          | zero =>
              rw [List.getElem?_cons_zero] at hj
              injection hj with hj
              exact hj ▸ hlt
          | succ j' =>
              rw [List.getElem?_cons_succ] at hj
              exact hstrict j' ej (by omega) hj

/-- Characterization of the default-flag pass on a list whose entries have
pairwise distinct classes: the scan rewrites every entry's flag to "am I
the entry at the first-maximum index". -/
theorem setDefaultsGo_char (istar : Nat) (fuel : Nat) :
    ∀ (st : List ClassEntry) (j : Nat) (em : ClassEntry),
      st.length = j + fuel →
      st[istar]? = some em →
      (∀ (p q : Nat) (ea eb : ClassEntry), st[p]? = some ea → st[q]? = some eb →
        p ≠ q → ea.object_class ≠ eb.object_class) →
      ∀ k ek, st[k]? = some ek →
        (setDefaultsGo istar st j fuel)[k]? =
          if k < j then some ek
          else some { ek with default := some (decide (k = istar)) } := by
  induction fuel with
  | zero =>
      intro st j em hlen histar hcls k ek hk
      have hklen : k < st.length := by
        by_contra hge
        rw [List.getElem?_eq_none (Nat.le_of_not_lt hge)] at hk
        exact Option.noConfusion hk
      have : k < j := by omega
      rw [if_pos this]
      exact hk
  | succ fuel ih =>
      intro st j em hlen histar hcls k ek hk
      have hjlen : j < st.length := by omega
      cases hj : st[j]? with
      | none =>
          rw [List.getElem?_eq_none_iff] at hj
          omega
      | some ej =>
          simp only [setDefaultsGo, hj, histar]
          -- the flag written at index j
          have hflag : decide (ej = em) = decide (j = istar) := by
            by_cases hji : j = istar
            · subst hji
              rw [hj] at histar
              injection histar with histar
              simp [histar]
            · have : ej ≠ em := fun hc =>
                hcls j istar ej em hj histar hji (by rw [hc])
              simp [this, hji]
          set st' := st.set j { ej with default := some (decide (ej = em)) } with hst'
          have hlen' : st'.length = (j + 1) + fuel := by
            rw [hst', List.length_set]
            omega
          have histar' : st'[istar]? =
              some (if istar = j then { ej with default := some (decide (ej = em)) } else em) := by
            by_cases hij : istar = j
            · subst hij
              rw [if_pos rfl, hst', List.getElem?_set_self hjlen]
            · rw [if_neg hij, hst', List.getElem?_set_ne (fun hc => hij hc.symm)]
              exact histar
          have hcls' : ∀ (p q : Nat) (ea eb : ClassEntry), st'[p]? = some ea →
              st'[q]? = some eb → p ≠ q → ea.object_class ≠ eb.object_class := by
            intro p q ea eb hp hq hpq
            have hget : ∀ (r : Nat) (er : ClassEntry), st'[r]? = some er →
                ∃ er0 : ClassEntry, st[r]? = some er0 ∧
                  er.object_class = er0.object_class := by
              intro r er hr
              by_cases hrj : r = j
              · subst hrj
                rw [hst', List.getElem?_set_self hjlen] at hr
                injection hr with hr
                exact ⟨ej, hj, by rw [← hr]⟩
              · rw [hst', List.getElem?_set_ne (fun hc => hrj hc.symm)] at hr
                exact ⟨er, hr, rfl⟩
            obtain ⟨ea0, hp0, hpe⟩ := hget p ea hp
            obtain ⟨eb0, hq0, hqe⟩ := hget q eb hq
            rw [hpe, hqe]
            exact hcls p q ea0 eb0 hp0 hq0 hpq
          have hrec := ih st' (j + 1)
            (if istar = j then { ej with default := some (decide (ej = em)) } else em)
            hlen' histar' hcls'
          by_cases hkj : k = j
          · subst hkj
            have hk' : st'[k]? = some { ej with default := some (decide (ej = em)) } := by
              rw [hst', List.getElem?_set_self hjlen]
            have := hrec k _ hk'
            rw [this]
            rw [hj] at hk
            injection hk with hk
            subst hk
            rw [if_pos (Nat.lt_succ_self k), if_neg (lt_irrefl k), hflag]
          · have hk' : st'[k]? = some ek := by
              rw [hst', List.getElem?_set_ne (fun hc => hkj hc.symm)]
              exact hk
            have := hrec k ek hk'
            rw [this]
            by_cases hklt : k < j
            · have h1 : k < j + 1 := by omega
              rw [if_pos h1, if_pos hklt]
            · have h1 : ¬ k < j + 1 := by
                intro hc
                exact hkj (by omega)
              rw [if_neg h1, if_neg hklt]

/-- `setDefaults` on a list of pairwise distinct classes: every entry's
flag becomes "index equals the first-maximum index". -/
theorem setDefaults_char (l : List ClassEntry) (hne : l ≠ [])
    (hcls : ∀ (p q : Nat) (ea eb : ClassEntry), l[p]? = some ea →
      l[q]? = some eb → p ≠ q → ea.object_class ≠ eb.object_class) :
    ∀ (k : Nat) (ek : ClassEntry), l[k]? = some ek →
      (setDefaults l)[k]? =
        some { ek with default := some (decide (k = firstMaxIdx l)) } := by
  intro k ek hk
  obtain ⟨em, hem, -, -⟩ := firstMaxIdx_spec l hne
  have := setDefaultsGo_char (firstMaxIdx l) l.length l 0 em (by omega) hem hcls k ek hk
  unfold setDefaults
  rw [this, if_neg (by omega)]

/-- The default-flag pass preserves the list length. -/
theorem setDefaultsGo_length (istar : Nat) (fuel : Nat) :
    ∀ (st : List ClassEntry) (j : Nat),
      (setDefaultsGo istar st j fuel).length = st.length := by
  induction fuel with
  | zero => intro st j; rfl
  | succ fuel ih =>
      intro st j
      simp only [setDefaultsGo]
      cases hj : st[j]? with
      | none => rfl
      | some ej =>
          cases hm : st[istar]? with
          | none => rfl
          | some em =>
              rw [ih]
              simp

/-- `setDefaults` preserves the list length. -/
theorem setDefaults_length (l : List ClassEntry) :
    (setDefaults l).length = l.length :=
  setDefaultsGo_length (firstMaxIdx l) l.length l 0

/-- Positions of a list with pairwise-distinct images under `f` carry
pairwise-distinct images. -/
theorem nodup_map_pairwise {α β : Type} [DecidableEq β] (l : List α) (f : α → β)
    (hl : (l.map f).Nodup) :
    ∀ (p q : Nat) (ea eb : α), l[p]? = some ea → l[q]? = some eb → p ≠ q →
      f ea ≠ f eb := by
  intro p q ea eb hp hq hpq hfe
  have hp' : (l.map f)[p]? = some (f ea) := by rw [List.getElem?_map, hp]; rfl
  have hq' : (l.map f)[q]? = some (f eb) := by rw [List.getElem?_map, hq]; rfl
  have hplen : p < (l.map f).length := by
    by_contra hge
    rw [List.getElem?_eq_none (Nat.le_of_not_lt hge)] at hp'
    exact Option.noConfusion hp'
  have : (l.map f)[p]? = (l.map f)[q]? := by rw [hp', hq', hfe]
  exact hpq (List.getElem?_inj hplen hl this)

/-- C5 counterexample: side A may legally carry two structurally different
entries of the same class (here one flagged default, one not, both at the
maximum confidence — A satisfies the data model's "at most one default and
it is a maximum" invariant); after merging with a side-B entry of another
class, the `item == maxconf` pass marks *two* entries as default: the pass
flags the first maximum entry, and the second TDE entry — equal to the
first one *after* its flag was raised — is flagged as well. -/
theorem classification_two_defaults_refutes :
    ((mergeClass
        [⟨"TDE", 1, .list ["r"], some false⟩, ⟨"TDE", 1, .list ["r"], some true⟩]
        [⟨"SN", 0, .list ["r"], some false⟩]).1).countP
      (fun e => decide (e.default = some true)) = 2 := by
  rfl

/-- C5 amended: provided the object classes within each side are pairwise
distinct (the merge itself keys on `object_class`, and the collision logic
preserves this), after any classification merge of non-empty inputs
exactly one entry carries `default = true`: the first maximum-confidence
entry of the merged ordering — every other entry is flagged `false`, no
entry exceeds its confidence, and all earlier entries are strictly
below it. -/
theorem classification_default_unique (t1 t2 : List ClassEntry)
    (h1 : (t1.map (fun e => e.object_class)).Nodup)
    (h2 : (t2.map (fun e => e.object_class)).Nodup)
    (hne : t1 ≠ [] ∨ t2 ≠ []) :
    ∃ (i : Nat) (me : ClassEntry),
      ((mergeClass t1 t2).1)[i]? = some me ∧ me.default = some true ∧
      (∀ (j : Nat) (mj : ClassEntry), ((mergeClass t1 t2).1)[j]? = some mj →
        j ≠ i → mj.default = some false) ∧
      (∀ (j : Nat) (mj : ClassEntry), ((mergeClass t1 t2).1)[j]? = some mj →
        mj.confidence ≤ me.confidence) ∧
      (∀ (j : Nat) (mj : ClassEntry), ((mergeClass t1 t2).1)[j]? = some mj →
        j < i → mj.confidence < me.confidence) := by
  have hout : (mergeClass t1 t2).1 =
      setDefaults (((classFold (t1.map (fun e => e.object_class))
        (t1.map (fun x => (x, none))) 0 t2).1).map (fun p => p.1)) := rfl
  set m0 := ((classFold (t1.map (fun e => e.object_class))
    (t1.map (fun x => (x, none))) 0 t2).1).map (fun p => p.1) with hm0
  -- the class column of the merged list
  have hclasses : m0.map (fun e => e.object_class) =
      t1.map (fun e => e.object_class) ++
      (t2.filter (fun e => decide (firstIdx (t1.map (fun e => e.object_class))
        e.object_class = none))).map (fun e => e.object_class) := by
    rw [hm0, List.map_map]
    have hcf := classFold_classes (t1.map (fun e => e.object_class)) t2
      (t1.map (fun x => (x, none))) 0
    rw [List.map_map] at hcf
    exact hcf
  -- the merged list is nonempty
  have hm0ne : m0 ≠ [] := by
    intro hnil
    have hcl := hclasses
    rw [hnil, List.map_nil] at hcl
    rcases List.append_eq_nil.mp hcl.symm with ⟨hl1, hl2⟩
    have ht1nil : t1 = [] := List.map_eq_nil_iff.mp hl1
    rcases hne with ht1 | ht2
    · exact ht1 ht1nil
    · cases htt2 : t2 with
      | nil => exact ht2 htt2
      | cons b bs =>
          subst ht1nil
          rw [htt2] at hl2
          simp [firstIdx] at hl2
  -- pairwise distinct classes in the merged list
  have hnodup : (m0.map (fun e => e.object_class)).Nodup := by
    rw [hclasses]
    rw [List.nodup_append]
    refine ⟨h1, ?_, ?_⟩
    · exact h2.sublist (List.Sublist.map _ (List.filter_sublist t2))
    · intro c hc1 hc2
      rcases List.mem_map.mp hc2 with ⟨e, he, hec⟩
      have := List.of_mem_filter he
      rw [decide_eq_true_eq] at this
      exact (firstIdx_eq_none _ _ this) (hec ▸ hc1)
  have hcls := nodup_map_pairwise m0 (fun e => e.object_class) hnodup
  obtain ⟨em, hem, hmax, hstrict⟩ := firstMaxIdx_spec m0 hm0ne
  refine ⟨firstMaxIdx m0, { em with default := some true }, ?_, rfl, ?_, ?_, ?_⟩
  · rw [hout]
    have := setDefaults_char m0 hm0ne hcls (firstMaxIdx m0) em hem
    rw [this]
    simp
  · intro j mj hj hji
    rw [hout] at hj
    have hjlen : j < m0.length := by
      have hl := setDefaults_length m0
      by_contra hge
      rw [List.getElem?_eq_none (by omega : (setDefaults m0).length ≤ j)] at hj
      exact Option.noConfusion hj
    have hej : m0[j]? = some m0[j] := List.getElem?_eq_getElem hjlen
    have hchar := setDefaults_char m0 hm0ne hcls j m0[j] hej
    rw [hchar] at hj
    injection hj with hj
    rw [← hj]
    simp [hji]
  · intro j mj hj
    rw [hout] at hj
    have hjlen : j < m0.length := by
      have hl := setDefaults_length m0
      by_contra hge
      rw [List.getElem?_eq_none (by omega : (setDefaults m0).length ≤ j)] at hj
      exact Option.noConfusion hj
    have hej : m0[j]? = some m0[j] := List.getElem?_eq_getElem hjlen
    have := setDefaults_char m0 hm0ne hcls j m0[j] hej
    rw [this] at hj
    injection hj with hj
    have : mj.confidence = (m0[j]).confidence := by rw [← hj]
    rw [this]
    exact hmax j m0[j] hej
  · intro j mj hj hji
    rw [hout] at hj
    have hjlen : j < m0.length := by
      have hl := setDefaults_length m0
      by_contra hge
      rw [List.getElem?_eq_none (by omega : (setDefaults m0).length ≤ j)] at hj
      exact Option.noConfusion hj
    have hej : m0[j]? = some m0[j] := List.getElem?_eq_getElem hjlen
    have := setDefaults_char m0 hm0ne hcls j m0[j] hej
    rw [this] at hj
    injection hj with hj
    have : mj.confidence = (m0[j]).confidence := by rw [← hj]
    rw [this]
    exact hstrict j m0[j] hji hej

/-- Witness for C5's amended statement at a concrete merge of two
single-entry sides with distinct classes. -/
theorem classification_default_unique_witness :
    ∃ (i : Nat) (me : ClassEntry),
      ((mergeClass [⟨"TDE", 2, .list ["r1"], none⟩]
        [⟨"SN", 1, .list ["r2"], none⟩]).1)[i]? = some me ∧
      me.default = some true ∧
      (∀ (j : Nat) (mj : ClassEntry),
        ((mergeClass [⟨"TDE", 2, .list ["r1"], none⟩]
          [⟨"SN", 1, .list ["r2"], none⟩]).1)[j]? = some mj →
        j ≠ i → mj.default = some false) ∧
      (∀ (j : Nat) (mj : ClassEntry),
        ((mergeClass [⟨"TDE", 2, .list ["r1"], none⟩]
          [⟨"SN", 1, .list ["r2"], none⟩]).1)[j]? = some mj →
        mj.confidence ≤ me.confidence) ∧
      (∀ (j : Nat) (mj : ClassEntry),
        ((mergeClass [⟨"TDE", 2, .list ["r1"], none⟩]
          [⟨"SN", 1, .list ["r2"], none⟩]).1)[j]? = some mj →
        j < i → mj.confidence < me.confidence) :=
  classification_default_unique
    [⟨"TDE", 2, .list ["r1"], none⟩] [⟨"SN", 1, .list ["r2"], none⟩]
    (by decide) (by decide) (Or.inl (by decide))

/-! ## C7 — the Tabular Merge Primitive -/

/-- Membership in the deduplication worker. -/
theorem mem_dedupFirstAux [DecidableEq α] (l : List α) :
    ∀ (seen : List α) (a : α),
      a ∈ dedupFirstAux seen l ↔ a ∈ l ∧ a ∉ seen := by
  induction l with
  | nil => intro seen a; simp [dedupFirstAux]
  | cons b bs ih =>
      intro seen a
      by_cases hb : b ∈ seen
      · rw [dedupFirstAux, if_pos hb, ih]
        constructor
        · rintro ⟨h1, h2⟩
          exact ⟨List.mem_cons_of_mem b h1, h2⟩
        · rintro ⟨h1, h2⟩
          rcases List.mem_cons.mp h1 with hab | h1
          · subst hab
            exact absurd hb h2
          · exact ⟨h1, h2⟩
      · rw [dedupFirstAux, if_neg hb]
        constructor
        · intro h
          rcases List.mem_cons.mp h with hab | h1
          · subst hab
            exact ⟨List.mem_cons_self a bs, hb⟩
          · rw [ih] at h1
            refine ⟨List.mem_cons_of_mem b h1.1, ?_⟩
            intro hc
            exact h1.2 (List.mem_cons_of_mem b hc)
        · rintro ⟨h1, h2⟩
          rcases List.mem_cons.mp h1 with hab | h1
          · subst hab
            exact List.mem_cons_self a _
          · by_cases hab : a = b
            · subst hab
              exact List.mem_cons_self a _
            · refine List.mem_cons_of_mem b ?_
              rw [ih]
              refine ⟨h1, ?_⟩
              intro hc
              rcases List.mem_cons.mp hc with h | h
              · exact hab h
              · exact h2 h

/-- `dedupFirst` preserves membership. -/
theorem mem_dedupFirst [DecidableEq α] (l : List α) (a : α) :
    a ∈ dedupFirst l ↔ a ∈ l := by
  rw [dedupFirst, mem_dedupFirstAux]
  simp

/-- The duplicate-dropping worker only keeps input rows. -/
theorem dropDupRowsAux_subset (rs : List (List (String × Option Val))) :
    ∀ (seen : List (List String)) (r : List (String × Option Val)),
      r ∈ dropDupRowsAux seen rs → r ∈ rs := by
  induction rs with
  | nil => intro seen r h; exact absurd h (List.not_mem_nil r)
  | cons r0 rest ih =>
      intro seen r h
      rw [dropDupRowsAux] at h
      by_cases hs : rowRepr r0 ∈ seen
      · rw [if_pos hs] at h
        exact List.mem_cons_of_mem r0 (ih seen r h)
      · rw [if_neg hs] at h
        rcases List.mem_cons.mp h with h1 | h1
        · exact h1 ▸ List.mem_cons_self r0 rest
        · exact List.mem_cons_of_mem r0 (ih _ r h1)

/-- The duplicate-dropping worker never lengthens the list. -/
theorem dropDupRowsAux_length (rs : List (List (String × Option Val))) :
    ∀ (seen : List (List String)),
      (dropDupRowsAux seen rs).length ≤ rs.length := by
  induction rs with
  | nil => intro seen; exact Nat.le_refl 0
  | cons r0 rest ih =>
      intro seen
      rw [dropDupRowsAux]
      by_cases hs : rowRepr r0 ∈ seen
      · rw [if_pos hs]
        exact Nat.le_succ_of_le (ih seen)
      · rw [if_neg hs]
        simpa using Nat.succ_le_succ (ih (rowRepr r0 :: seen))

/-- `_remove_nans` never emits a NaN-valued field. -/
theorem stripRow_no_nan (r : List (String × Option Val)) :
    ∀ p ∈ stripRow r, p.2 ≠ Val.nan := by
  intro p hp
  rw [stripRow, List.mem_filterMap] at hp
  obtain ⟨q, -, hq⟩ := hp
  rcases q with ⟨qk, qv⟩
  cases qv with
  | none => exact absurd hq (by simp)
  | some v =>
      cases v with
      | nan => exact absurd hq (by simp)
      | num x =>
          simp only at hq
          injection hq with hq
          rw [← hq]
          simp
      | str s =>
          simp only at hq
          injection hq with hq
          rw [← hq]
          simp
      | bool b =>
          simp only at hq
          injection hq with hq
          rw [← hq]
          simp
      | slist l =>
          simp only at hq
          injection hq with hq
          rw [← hq]
          simp
      | vdict l =>
          simp only at hq
          injection hq with hq
          rw [← hq]
          simp
      | null =>
          simp only at hq
          injection hq with hq
          rw [← hq]
          simp

/-- A successful `entryGet` returns the value of a member pair. -/
theorem entryGet_mem (e : Entry) (k : String) (v : Val)
    (h : entryGet e k = some v) : (k, v) ∈ e := by
  rw [entryGet] at h
  cases hf : e.find? (fun p => decide (p.1 = k)) with
  | none => rw [hf] at h; exact Option.noConfusion h
  | some p =>
      rw [hf] at h
      injection h with h
      have hmem := List.mem_of_find?_eq_some hf
      have hkey := List.find?_some hf
      rw [decide_eq_true_eq] at hkey
      rcases p with ⟨pk, pv⟩
      simp only at h hkey
      rw [← h, ← hkey]
      exact hmem

/-- Reading a stripped aligned row is reading the original entry for keys
among the columns, and yields nothing otherwise (the entry being NaN-free,
no non-artifact cell is dropped). -/
theorem entryGet_strip_align (e : Entry)
    (hnan : ∀ p ∈ e, p.2 ≠ Val.nan) (k : String) :
    ∀ cols : List String,
      entryGet (stripRow (alignRow cols e)) k =
        if k ∈ cols then entryGet e k else none := by
  intro cols
  induction cols with
  | nil => simp [alignRow, stripRow, entryGet]
  | cons c cs ih =>
      have hrow : alignRow (c :: cs) e = (c, entryGet e c) :: alignRow cs e := rfl
      cases hc : entryGet e c with
      | none =>
          have hstrip : stripRow (alignRow (c :: cs) e) = stripRow (alignRow cs e) := by
            rw [hrow, stripRow, List.filterMap_cons]
            simp only [hc]
            rfl
          rw [hstrip, ih]
          by_cases hkc : k = c
          · subst hkc
            by_cases hkcs : k ∈ cs
            · simp [hkcs, hc]
            · simp [hkcs, hc]
          · simp only [List.mem_cons]
            by_cases hkcs : k ∈ cs
            · simp [hkcs, hkc]
            · simp [hkcs, hkc]
      | some v =>
          have hvnan : v ≠ Val.nan := hnan (c, v) (entryGet_mem e c v hc)
          have hstrip : stripRow (alignRow (c :: cs) e) =
              (c, v) :: stripRow (alignRow cs e) := by
            rw [hrow, stripRow, List.filterMap_cons]
            simp only [hc]
            cases v with
            | nan => exact absurd rfl hvnan
            | num x => rfl
            | str s => rfl
            | bool b => rfl
            | slist l => rfl
            | vdict l => rfl
            | null => rfl
          rw [hstrip]
          by_cases hkc : k = c
          · subst hkc
            have : entryGet ((k, v) :: stripRow (alignRow cs e)) k = some v := by
              rw [entryGet]
              simp [List.find?_cons]
            rw [this]
            simp [hc]
          · have : entryGet ((c, v) :: stripRow (alignRow cs e)) k =
                entryGet (stripRow (alignRow cs e)) k := by
              rw [entryGet, entryGet]
              simp only [List.find?_cons]
              have : (decide ((c, v).1 = k)) = false := by
                simp only [decide_eq_false_iff_not]
                exact fun hcc => hkc hcc.symm
              rw [this]
            rw [this, ih]
            simp only [List.mem_cons]
            by_cases hkcs : k ∈ cs
            · simp [hkcs, hkc]
            · simp [hkcs, hkc]

/-- C7: the Tabular Merge Primitive (used for `coordinate`,
`date_reference` and `distance`) returns at most `|L1| + |L2|` entries;
assuming NaN-free inputs (decoded JSON carries no NaN), every output entry
is dict-equal to some entry of `L1 ++ L2`, and no output entry carries a
NaN-valued field — concatenation artifacts are absent fields, not
nulls. -/
theorem tabular_merge_primitive (l1 l2 : List Entry)
    (hnan : ∀ e ∈ l1 ++ l2, ∀ p ∈ e, p.2 ≠ Val.nan) :
    (mergeArbitrary l1 l2).length ≤ l1.length + l2.length ∧
    (∀ e ∈ mergeArbitrary l1 l2, ∃ e', (e' ∈ l1 ++ l2) ∧ entryEquiv e e') ∧
    (∀ e ∈ mergeArbitrary l1 l2, ∀ p ∈ e, p.2 ≠ Val.nan) := by
  refine ⟨?_, ?_, ?_⟩
  · rw [mergeArbitrary]
    simp only [List.length_map]
    calc (dropDupRows ((l1 ++ l2).map (alignRow (tableCols l1 l2)))).length
        ≤ ((l1 ++ l2).map (alignRow (tableCols l1 l2))).length :=
          dropDupRowsAux_length _ _
      _ = l1.length + l2.length := by simp
  · intro e he
    rw [mergeArbitrary, List.mem_map] at he
    obtain ⟨r, hr, hre⟩ := he
    have hr2 := dropDupRowsAux_subset _ _ _ hr
    rw [List.mem_map] at hr2
    obtain ⟨e0, he0, hre0⟩ := hr2
    refine ⟨e0, he0, ?_⟩
    intro k
    rw [← hre, ← hre0]
    rw [entryGet_strip_align e0 (hnan e0 he0) k (tableCols l1 l2)]
    by_cases hk : k ∈ tableCols l1 l2
    · rw [if_pos hk]
    · rw [if_neg hk]
      rw [entryGet]
      rw [List.find?_eq_none.mpr]
      · rfl
      · intro p hp hpk
        rw [decide_eq_true_eq] at hpk
        apply hk
        rw [tableCols, mem_dedupFirst]
        rw [List.mem_flatMap]
        exact ⟨e0, he0, hpk ▸ List.mem_map_of_mem _ hp⟩
  · intro e he
    rw [mergeArbitrary, List.mem_map] at he
    obtain ⟨r, -, hre⟩ := he
    rw [← hre]
    exact stripRow_no_nan r

/-- Witness for C7 on two small concrete lists with a shared column, a
one-sided column, and a duplicate entry. -/
theorem tabular_merge_primitive_witness :
    ((mergeArbitrary [[("a", .num 1)], [("a", .num 1), ("b", .str "x")]]
        [[("a", .num 1)]]).length ≤ 2 + 1) ∧
    (∀ e ∈ mergeArbitrary [[("a", .num 1)], [("a", .num 1), ("b", .str "x")]]
        [[("a", .num 1)]],
      ∃ e', (e' ∈ ([[("a", .num 1)], [("a", .num 1), ("b", .str "x")]] ++
        [[("a", .num 1)]] : List Entry)) ∧ entryEquiv e e') ∧
    (∀ e ∈ mergeArbitrary [[("a", .num 1)], [("a", .num 1), ("b", .str "x")]]
        [[("a", .num 1)]], ∀ p ∈ e, p.2 ≠ Val.nan) :=
  tabular_merge_primitive
    [[("a", .num 1)], [("a", .num 1), ("b", .str "x")]]
    [[("a", .num 1)]]
    (by decide)

/-! ## C8 — X-ray normalization without a telescope -/

/-- Rows of the joined photometry table come from blocks: each row copies
its block's scalar fields and its filter entry. -/
theorem mkRows_mem (inp : PhotInput) (r : PRow) (hr : r ∈ mkRows inp) :
    ∃ b ∈ inp.photometry, ∃ f : FilterEntry,
      lookupFilter inp.filter_alias_list b.filter_key = some f ∧
      r.obs_type = b.obs_type ∧ r.raw_units = b.raw_units ∧
      r.telescope = b.telescope ∧ r.filt = f := by
  rw [mkRows, List.mem_flatMap] at hr
  obtain ⟨b, hb, hrb⟩ := hr
  cases hlf : lookupFilter inp.filter_alias_list b.filter_key with
  | none => rw [hlf] at hrb; exact absurd hrb (List.not_mem_nil r)
  | some f =>
      rw [hlf, List.mem_filterMap] at hrb
      obtain ⟨q, -, hq⟩ := hrb
      cases q with
      | none => exact absurd hq (by simp)
      | some x =>
          simp only [Option.map_some'] at hq
          injection hq with hq
          exact ⟨b, hb, f, hlf, by rw [← hq], by rw [← hq], by rw [← hq],
            by rw [← hq]⟩

/-- Membership through `insertKey`. -/
theorem mem_insertKey (k a : GroupKey) (ks : List GroupKey) :
    a ∈ insertKey k ks ↔ a = k ∨ a ∈ ks := by
  induction ks with
  | nil => simp [insertKey]
  | cons k' ks' ih =>
      rw [insertKey]
      by_cases hle : keyLe k k'
      · rw [if_pos hle]
        simp
      · rw [if_neg hle]
        simp only [List.mem_cons, ih]
        tauto

/-- Membership through `sortKeys`. -/
theorem mem_sortKeys (a : GroupKey) (ks : List GroupKey) :
    a ∈ sortKeys ks ↔ a ∈ ks := by
  induction ks with
  | nil => simp [sortKeys]
  | cons k ks' ih =>
      rw [sortKeys, mem_insertKey, ih]
      simp

/-- The deduplication worker keeps no duplicates. -/
theorem dedupFirstAux_nodup [DecidableEq α] (l : List α) :
    ∀ seen : List α, (dedupFirstAux seen l).Nodup := by
  induction l with
  | nil => intro seen; exact List.nodup_nil
  | cons b bs ih =>
      intro seen
      rw [dedupFirstAux]
      by_cases hb : b ∈ seen
      · rw [if_pos hb]
        exact ih seen
      · rw [if_neg hb]
        refine List.Nodup.cons ?_ (ih (b :: seen))
        intro hc
        rw [mem_dedupFirstAux] at hc
        exact hc.2 (List.mem_cons_self b seen)

/-- A constant list has at most one distinct value. -/
theorem distinctCount_le_one [DecidableEq α] (l : List α) (c : α)
    (h : ∀ x ∈ l, x = c) : distinctCount l ≤ 1 := by
  rw [distinctCount]
  cases hd : dedupFirst l with
  | nil => simp
  | cons x xs =>
      cases hxs : xs with
      | nil => simp
      | cons y ys =>
          exfalso
          have hnodup : (dedupFirst l).Nodup := dedupFirstAux_nodup l []
          rw [hd, hxs] at hnodup
          have hx : x ∈ l := by
            rw [← mem_dedupFirst l x, hd]
            exact List.mem_cons_self x _
          have hy : y ∈ l := by
            rw [← mem_dedupFirst l y, hd, hxs]
            exact List.mem_cons_of_mem x (List.mem_cons_self y ys)
          have : x = y := by rw [h x hx, h y hy]
          rcases List.nodup_cons.mp hnodup with ⟨hxn, -⟩
          exact hxn (this ▸ List.mem_cons_self y ys)

/-- An X-ray group whose key has no telescope component fails with
`MissingTelescopeArea`, provided its unit string parses and its rows share
one filter entry (so the unit-consistency checks pass). -/
theorem waveStateOf_ok (fc wc : Bool) (g : List PRow)
    (hconst : ∃ f0 : FilterEntry, ∀ r ∈ g, r.filt = f0) :
    ∃ w, waveStateOf fc wc g = .ok w := by
  obtain ⟨f0, hf0⟩ := hconst
  rw [waveStateOf]
  cases hg : g.head? with
  | none => exact ⟨⟨false, false⟩, rfl⟩
  | some r0 =>
      rw [waveStateGo]
      by_cases h1 : fc = true ∧ (r0.filt.freq_eff ≠ none)
      · rw [if_pos h1]
        have : ¬ (distinctCount (g.map (fun r => r.filt.freq_units)) > 1) := by
          have := distinctCount_le_one (g.map (fun r => r.filt.freq_units))
            f0.freq_units (by
              intro x hx
              rcases List.mem_map.mp hx with ⟨r, hr, hxr⟩
              rw [← hxr, hf0 r hr])
          omega
        rw [if_neg this]
        exact ⟨⟨true, false⟩, rfl⟩
      · rw [if_neg h1]
        by_cases h2 : wc = true ∧ (r0.filt.wave_eff ≠ none)
        · rw [if_pos h2]
          have : ¬ (distinctCount (g.map (fun r => r.filt.wave_units)) > 1) := by
            have := distinctCount_le_one (g.map (fun r => r.filt.wave_units))
              f0.wave_units (by
                intro x hx
                rcases List.mem_map.mp hx with ⟨r, hr, hxr⟩
                rw [← hxr, hf0 r hr])
            omega
          rw [if_neg this]
          exact ⟨⟨true, true⟩, rfl⟩
        · rw [if_neg h2]
          exact ⟨⟨false, false⟩, rfl⟩

theorem processGroup_xray_no_telescope (fc wc wmc wmxc : Bool) (k : GroupKey)
    (g : List PRow) (hobs : k.obs = "xray") (htel : k.tel = none)
    (hparse : parseUnitStep k.units = .ok ())
    (hconst : ∃ f0 : FilterEntry, ∀ r ∈ g, r.filt = f0) :
    processGroup fc wc wmc wmxc k g = .error .missingTelescopeArea := by
  obtain ⟨w, hw⟩ := waveStateOf_ok fc wc g hconst
  simp only [processGroup, hparse, hw]
  rw [if_pos hobs, htel]

/-- An error in the first group aborts the whole group fold. -/
theorem processGroups_head_error (fc wc wmc wmxc teleCol : Bool)
    (rows : List PRow) (k : GroupKey) (ks : List GroupKey) (er : PhotErr)
    (hk : processGroup fc wc wmc wmxc k
      (rows.filter (fun r => decide (keyOf teleCol r = k))) = .error er) :
    processGroups fc wc wmc wmxc teleCol rows (k :: ks) = .error er := by
  rw [processGroups, hk]

/-- C8 counterexample: the record's photometry has an X-ray group with no
telescope identity, yet normalization does not raise MissingTelescopeArea:
because another block carries a telescope, the telescope column exists,
the X-ray group's key is the NaN cell, and `telescope.lower()` dies with
an uncaught AttributeError instead. -/
theorem xray_no_telescope_refutes :
    (photCex.photometry.any (fun b =>
      decide (b.obs_type = "xray") && !(b.telescope.isSome)) = true) ∧
    cleanPhotometry photCex = .error .attributeError ∧
    cleanPhotometry photCex ≠ .error .missingTelescopeArea := by
  refine ⟨rfl, rfl, ?_⟩
  intro h
  rw [show cleanPhotometry photCex = .error .attributeError from rfl] at h
  exact PhotErr.noConfusion (Except.error.inj h)

/-- C8 amended: normalizing a record whose photometry blocks are all
X-ray and none of which carries a `telescope` key (so the telescope
column is absent from the table) raises MissingTelescopeArea — provided
at least one measurement survives the filter join, the blocks share one
filter entry (keeping the per-group unit checks happy) and their unit
strings parse.  When some *other* block does carry a telescope, the
X-ray group without one fails with an uncaught AttributeError instead
(see the counterexample). -/
theorem xray_no_telescope_missing_area (inp : PhotInput)
    (hne : inp.photometry ≠ [])
    (htel : ∀ b ∈ inp.photometry, b.telescope = none)
    (hobs : ∀ b ∈ inp.photometry, b.obs_type = "xray")
    (hfk : ∃ k0 : String, ∀ b ∈ inp.photometry, b.filter_key = k0)
    (hparse : ∀ b ∈ inp.photometry, parseUnitStep b.raw_units = .ok ())
    (hrows : mkRows inp ≠ []) :
    cleanPhotometry inp = .error .missingTelescopeArea := by
  obtain ⟨k0, hk0⟩ := hfk
  -- the telescope column is absent
  have hteleCol : inp.photometry.any (fun b => b.telescope.isSome) = false := by
    rw [List.any_eq_false]
    intro b hb
    rw [htel b hb]
    simp
  -- every row shares one filter entry
  have hf0 : ∃ f0 : FilterEntry, ∀ r ∈ mkRows inp, r.filt = f0 := by
    cases hmk : mkRows inp with
    | nil => exact absurd hmk hrows
    | cons r0 rest =>
        obtain ⟨b0, hb0, f0, hlf0, -, -, -, hrf0⟩ :=
          mkRows_mem inp r0 (hmk ▸ List.mem_cons_self r0 rest)
        refine ⟨f0, ?_⟩
        intro r hr
        rw [← hmk] at hr
        obtain ⟨b, hb, f, hlf, -, -, -, hrf⟩ := mkRows_mem inp r hr
        rw [hk0 b hb] at hlf
        rw [hk0 b0 hb0] at hlf0
        rw [hlf0] at hlf
        injection hlf with hlf
        rw [hrf, ← hlf]
    -- every group key is xray with no telescope and a parsing unit
  have hkeys : ∀ k ∈ groupKeys false (mkRows inp),
      k.obs = "xray" ∧ k.tel = none ∧ parseUnitStep k.units = .ok () := by
    intro k hk
    rw [groupKeys, mem_sortKeys, mem_dedupFirst, List.mem_map] at hk
    obtain ⟨r, hr, hkr⟩ := hk
    obtain ⟨b, hb, f, -, hro, hru, -, -⟩ := mkRows_mem inp r hr
    refine ⟨?_, ?_, ?_⟩
    · rw [← hkr, keyOf]
      simpa using hro ▸ hobs b hb
    · rw [← hkr, keyOf]
      simp
    · rw [← hkr, keyOf]
      simpa using hru ▸ hparse b hb
  -- run the pipeline
  rw [cleanPhotometry]
  rw [if_neg hne]
  simp only [hteleCol]
  cases hgk : groupKeys false (mkRows inp) with
  | nil =>
      exfalso
      cases hmk : mkRows inp with
      | nil => exact hrows hmk
      | cons r0 rest =>
          have : keyOf false r0 ∈ groupKeys false (mkRows inp) := by
            rw [groupKeys, mem_sortKeys, mem_dedupFirst, List.mem_map]
            exact ⟨r0, hmk ▸ List.mem_cons_self r0 rest, rfl⟩
          rw [hgk] at this
          exact List.not_mem_nil _ this
  | cons k ks =>
      have hkmem : k ∈ groupKeys false (mkRows inp) := by
        rw [hgk]
        exact List.mem_cons_self k ks
      obtain ⟨hko, hkt, hkp⟩ := hkeys k hkmem
      obtain ⟨f0, hf0all⟩ := hf0
      have hgerr := processGroup_xray_no_telescope
        (inp.filter_alias_list.any (fun f => f.freq_eff.isSome))
        (inp.filter_alias_list.any (fun f => f.wave_eff.isSome))
        (inp.filter_alias_list.any (fun f => f.wave_min.isSome))
        (inp.filter_alias_list.any (fun f => f.wave_max.isSome))
        k ((mkRows inp).filter (fun r => decide (keyOf false r = k)))
        hko hkt hkp
        ⟨f0, fun r hr => hf0all r (List.mem_of_mem_filter hr)⟩
      have := processGroups_head_error
        (inp.filter_alias_list.any (fun f => f.freq_eff.isSome))
        (inp.filter_alias_list.any (fun f => f.wave_eff.isSome))
        (inp.filter_alias_list.any (fun f => f.wave_min.isSome))
        (inp.filter_alias_list.any (fun f => f.wave_max.isSome))
        false (mkRows inp) k ks PhotErr.missingTelescopeArea hgerr
      rw [this]

/-- Witness for C8's amended statement: a single X-ray block with no
telescope raises MissingTelescopeArea. -/
theorem xray_no_telescope_missing_area_witness :
    cleanPhotometry photWit = .error .missingTelescopeArea :=
  xray_no_telescope_missing_area photWit (by decide) (by decide) (by decide)
    ⟨"g", by decide⟩ (by decide) (by decide)

end Otter
